import Mathlib

/-!
Shallow embedding of the `lic` scripting-language pipeline: the bytecode
compiler's fragment assembler (`src/compiler/src/fragment.rs`), the
semantic-analysis step of variable statements
(`src/parser/src/tree/variable_statement.rs`), the runtime variable table
(`src/vm/src/runtime/variable_table.rs`) and the stack-VM execution core
(`src/vm/src/execute.rs`).

Rust `i64` values are modelled as `ℤ`; arithmetic that can overflow applies an
explicit two's-complement wrap (release-profile semantics).  Rust `f64` values
are modelled by an abstract type `F` whose operations are supplied by an
`Ext` record, since the claims under study depend only on which float
operation is invoked, never on IEEE values.  Reference-counted shared state
(`Rc<RefCell<_>>`) is modelled by an explicit heap of cells / arrays / tables
addressed by natural-number references.  Rust panics (index out of bounds,
`unimplemented!`, `expect`, arithmetic aborts) are a distinct outcome from
`Err` results, mirroring the fact that a panic aborts the interpreter rather
than producing a error value.
-/

namespace Lic

/-- Two's-complement wrap into the `i64` range, the release-profile result of
an overflowing Rust `i64` operation. -/
def wrap64 (z : ℤ) : ℤ :=
  (z + 2 ^ 63) % 2 ^ 64 - 2 ^ 63

/-- Smallest `i64` value, `i64::MIN`. -/
def i64Min : ℤ := -(2 ^ 63)

/-- Rust `as usize` cast of an `i64` value (two's-complement reinterpretation,
64-bit `usize`). -/
def usizeOfI64 (z : ℤ) : ℕ :=
  (z % 2 ^ 64).toNat

/-- Built-in operation tag carried by the `Builtin` instruction
(`BuiltinInstr` in the VM crate). -/
inductive BuiltinInstr where
  | Write
  | Flush
  | WriteError
  | FlushError
  | ReadLine
  | ReadFile
  | WriteFile
deriving DecidableEq, Repr

/-- One VM instruction (`Code` in `vm/src/code.rs`), parametrised by the model
`F` of Rust `f64`.  Local ids, native-function handles and instruction counts
are naturals; jump offsets are `isize`, modelled as `ℤ`. -/
inductive Code (F : Type) where
  | LoadInt (x : ℤ)
  | LoadFloat (x : F)
  | LoadString (s : String)
  | LoadBool (b : Bool)
  | LoadNil
  | LoadLocal (id : ℕ)
  | LoadRustFunction (h : ℕ)
  | UnloadTop
  | SetLocal (id : ℕ)
  | MakeLocal
  | MakeArray (count : ℕ)
  | MakeNamed
  | MakeTable (count : ℕ)
  | DropLocal (count : ℕ)
  | Jump (offset : ℤ)
  | JumpIfTrue (offset : ℤ)
  | JumpIfFalse (offset : ℤ)
  | Call (args_len : ℕ)
  | CallMethod (name : String) (args_len : ℕ)
  | SetItem
  | GetItem
  | Add
  | Sub
  | Mul
  | Div
  | Mod
  | Pow
  | Unm
  | Eq
  | NotEq
  | Less
  | LessEq
  | Greater
  | GreaterEq
  | Concat
  | Builtin (instr : BuiltinInstr) (args_len : ℕ)
  | BeginFuncCreation
  | AddCapture (id : ℕ)
  | AddArgument (name : String)
  | EndFuncCreation
  | Nop
  | Return
  | Exit
deriving DecidableEq, Repr

/-- User-defined closure (`FunctionObject`): structural id `(pc, 0)`, captured
environment as cell references, argument names, and the body code. -/
structure FunctionObject (F : Type) where
  id : ℕ × ℕ
  env : List ℕ
  args : List String
  code : List (Code F)
deriving DecidableEq, Repr

/-- Runtime value (`Object`).  Strings carry their text; arrays and tables are
references into the heap; functions are carried structurally (the Rust `Rc`
around a `FunctionObject` is never mutated); native functions are opaque
handles resolved by the `Ext` record. -/
inductive Object (F : Type) where
  | int (x : ℤ)
  | float (x : F)
  | bool (b : Bool)
  | string (s : String)
  | nil
  | array (r : ℕ)
  | table (r : ℕ)
  | function (f : FunctionObject F)
  | rustFunction (h : ℕ)
deriving DecidableEq, Repr

/-- Method installed on a table: either a built-in (opaque handle, resolved by
`Ext`) or a user-defined closure. -/
inductive TableMethod (F : Type) where
  | builtin (h : ℕ)
  | custom (f : FunctionObject F)
deriving DecidableEq, Repr

/-- Table payload (`TableObject`): a string-keyed mapping plus a method
registry.  The Rust `HashMap` is modelled as an association list with
overwrite-on-insert semantics (`hmInsert`). -/
structure TableObject (F : Type) where
  entries : List (String × Object F)
  methods : List (String × TableMethod F)
deriving DecidableEq, Repr

/-- Lookup in the association-list model of `HashMap`. -/
def hmGet {F : Type} : List (String × Object F) → String → Option (Object F)
  | [], _ => none
  | (k, v) :: rest, key => if k = key then some v else hmGet rest key

/-- Insert in the association-list model of `HashMap`: replaces the existing
binding when the key is present, otherwise appends. -/
def hmInsert {F : Type} : List (String × Object F) → String → Object F →
    List (String × Object F)
  | [], key, v => [(key, v)]
  | (k, w) :: rest, key, v =>
    if k = key then (k, v) :: rest else (k, w) :: hmInsert rest key v

/-- Lookup in a table's method registry (`TableObject::get_method`). -/
def TableObject.get_method {F : Type} (t : TableObject F) (name : String) :
    Option (TableMethod F) :=
  (t.methods.find? (fun p => p.1 = name)).map Prod.snd

/-- Operand-stack entry (`StackValue`): a plain object or one of the raw
transient forms (`RawArray`, `Named`, `RawFunction`). -/
inductive StackValue (F : Type) where
  | object (o : Object F)
  | rawArray (a : List (Object F))
  | named (name : String) (value : Object F)
  | rawFunction (f : FunctionObject F)
deriving DecidableEq, Repr

/-- Explicit store backing every `Rc<RefCell<_>>` in the runtime: shared value
cells (captured variables), array payloads and table payloads, addressed by
index. -/
structure Heap (F : Type) where
  cells : List (Object F)
  arrays : List (List (Object F))
  tables : List (TableObject F)
deriving DecidableEq, Repr

/-- Entity of a scope (`internal::Entity`): an owned value or a shared cell
reference. -/
inductive Entity (F : Type) where
  | value (o : Object F)
  | shared (c : ℕ)
deriving DecidableEq, Repr

/-- One scope (`internal::Scope`): a positional sequence of entities. -/
structure Scope (F : Type) where
  entities : List (Entity F)
deriving DecidableEq, Repr

/-- Stack of scopes (`VariableTable`); every operation acts on the last
(= top) scope, as in the source. -/
structure VariableTable (F : Type) where
  scopes : List (Scope F)
deriving DecidableEq, Repr

namespace Scope

/-- Translation of `internal::Scope::push`. -/
def push {F : Type} (s : Scope F) (e : Entity F) : Scope F :=
  ⟨s.entities ++ [e]⟩

/-- Translation of `internal::Scope::drop`; `none` models the
`panic!("[BUG] Cannot drop …")` on underflow. -/
def drop {F : Type} (s : Scope F) (count : ℕ) : Option (Scope F) :=
  if count > s.entities.length then none
  else some ⟨s.entities.take (s.entities.length - count)⟩

/-- Translation of `internal::Scope::get`; reading a shared entity clones the
cell's content out of the heap.  `none` models the out-of-range panic (and an
impossible-in-Rust dangling cell reference). -/
def get {F : Type} (s : Scope F) (h : Heap F) (id : ℕ) : Option (Object F) :=
  match s.entities.get? id with
  | some (.value o) => some o
  | some (.shared c) => h.cells.get? c
  | none => none

/-- Translation of `internal::Scope::get_ref`: an `Entity::Value` is upgraded
in place to an `Entity::Shared` pointing at a freshly allocated cell holding
the old value; an `Entity::Shared` is returned as is.  `none` models the
out-of-range panic. -/
def get_ref {F : Type} (s : Scope F) (h : Heap F) (id : ℕ) :
    Option (ℕ × Scope F × Heap F) :=
  match s.entities.get? id with
  | some (.value o) =>
    some (h.cells.length, ⟨s.entities.set id (.shared h.cells.length)⟩,
      { h with cells := h.cells ++ [o] })
  | some (.shared c) => some (c, s, h)
  | none => none

/-- Translation of `internal::Scope::edit`: an owned entity is replaced, a
shared entity has its cell's content overwritten.  `none` models the
out-of-range panic. -/
def edit {F : Type} (s : Scope F) (h : Heap F) (id : ℕ) (o : Object F) :
    Option (Scope F × Heap F) :=
  match s.entities.get? id with
  | some (.value _) => some (⟨s.entities.set id (.value o)⟩, h)
  | some (.shared c) => some (s, { h with cells := h.cells.set c o })
  | none => none

end Scope

namespace VariableTable

/-- Fresh table with a single empty scope (`VariableTable::new`). -/
def new (F : Type) : VariableTable F :=
  ⟨[⟨[]⟩]⟩

/-- Translation of `VariableTable::push_scope`. -/
def push_scope {F : Type} (vt : VariableTable F) : VariableTable F :=
  ⟨vt.scopes ++ [⟨[]⟩]⟩

/-- Translation of `VariableTable::pop_scope`; `none` models the `expect`
panic on an empty scope stack. -/
def pop_scope {F : Type} (vt : VariableTable F) : Option (VariableTable F) :=
  match vt.scopes.getLast? with
  | some _ => some ⟨vt.scopes.dropLast⟩
  | none => none

/-- Translation of `VariableTable::push` (append an owned value to the top
scope); `none` models the `expect` panic when no scope exists. -/
def push {F : Type} (vt : VariableTable F) (o : Object F) :
    Option (VariableTable F) :=
  match vt.scopes.getLast? with
  | some s => some ⟨vt.scopes.dropLast ++ [s.push (.value o)]⟩
  | none => none

/-- Translation of `VariableTable::push_ref` (append a shared-cell entity to
the top scope). -/
def push_ref {F : Type} (vt : VariableTable F) (c : ℕ) :
    Option (VariableTable F) :=
  match vt.scopes.getLast? with
  | some s => some ⟨vt.scopes.dropLast ++ [s.push (.shared c)]⟩
  | none => none

/-- Translation of `VariableTable::drop`. -/
def drop {F : Type} (vt : VariableTable F) (count : ℕ) :
    Option (VariableTable F) :=
  match vt.scopes.getLast? with
  | some s => (s.drop count).map fun s' => ⟨vt.scopes.dropLast ++ [s']⟩
  | none => none

/-- Translation of `VariableTable::get`. -/
def get {F : Type} (vt : VariableTable F) (h : Heap F) (id : ℕ) :
    Option (Object F) :=
  match vt.scopes.getLast? with
  | some s => s.get h id
  | none => none

/-- Translation of `VariableTable::get_ref`. -/
def get_ref {F : Type} (vt : VariableTable F) (h : Heap F) (id : ℕ) :
    Option (ℕ × VariableTable F × Heap F) :=
  match vt.scopes.getLast? with
  | some s =>
    (s.get_ref h id).map fun x =>
      (x.1, ⟨vt.scopes.dropLast ++ [x.2.1]⟩, x.2.2)
  | none => none

/-- Translation of `VariableTable::edit`. -/
def edit {F : Type} (vt : VariableTable F) (h : Heap F) (id : ℕ)
    (o : Object F) : Option (VariableTable F × Heap F) :=
  match vt.scopes.getLast? with
  | some s => (s.edit h id o).map fun x => (⟨vt.scopes.dropLast ++ [x.1]⟩, x.2)
  | none => none

end VariableTable

/-- Fragment assembler (`Fragment` in `compiler/src/fragment.rs`): a code
buffer plus the two pending-jump position lists, both holding absolute indices
into `code`. -/
structure Fragment (F : Type) where
  code : List (Code F)
  forward_jump_pos : List ℕ
  backward_jump_pos : List ℕ
deriving DecidableEq, Repr

namespace Fragment

/-- Translation of `Fragment::new`. -/
def new (F : Type) : Fragment F :=
  ⟨[], [], []⟩

/-- Translation of `Fragment::len`. -/
def len {F : Type} (f : Fragment F) : ℕ :=
  f.code.length

/-- Translation of `Fragment::append`. -/
def append {F : Type} (f : Fragment F) (c : Code F) : Fragment F :=
  { f with code := f.code ++ [c] }

/-- Translation of `Fragment::append_many`. -/
def append_many {F : Type} (f : Fragment F) (cs : List (Code F)) : Fragment F :=
  { f with code := f.code ++ cs }

/-- Translation of `Fragment::append_forward_jump`: push a `Jump(0)`
placeholder and record its index in the forward list. -/
def append_forward_jump {F : Type} (f : Fragment F) : Fragment F :=
  { f with
    code := f.code ++ [.Jump 0]
    forward_jump_pos := f.forward_jump_pos ++ [f.code.length] }

/-- Translation of `Fragment::append_backward_jump`. -/
def append_backward_jump {F : Type} (f : Fragment F) : Fragment F :=
  { f with
    code := f.code ++ [.Jump 0]
    backward_jump_pos := f.backward_jump_pos ++ [f.code.length] }

/-- Translation of `Fragment::patch_forward_jump`: every pending forward index
`p` is overwritten with `Jump(len - p - 1 + offset)` and the forward list is
cleared.  The Rust subtraction `len - pos - 1` is on `usize` but is guarded by
`debug_assert!(matches!(code[pos], Jump(0)))` together with the index panic,
which force `pos < len` in any run that completes; the `ℤ` formula below
agrees on that domain.  The `debug_assert` itself does not affect the
result. -/
def patch_forward_jump {F : Type} (f : Fragment F) (offset : ℤ) : Fragment F :=
  let len := f.code.length
  { code :=
      f.forward_jump_pos.foldl
        (fun c pos => c.set pos (.Jump ((len : ℤ) - (pos : ℤ) - 1 + offset)))
        f.code
    forward_jump_pos := []
    backward_jump_pos := f.backward_jump_pos }

/-- Translation of `Fragment::patch_backward_jump`: every pending backward
index `p` is overwritten with `Jump(-p + offset)` and the backward list is
cleared. -/
def patch_backward_jump {F : Type} (f : Fragment F) (offset : ℤ) : Fragment F :=
  { code :=
      f.backward_jump_pos.foldl
        (fun c pos => c.set pos (.Jump (-(pos : ℤ) + offset)))
        f.code
    forward_jump_pos := f.forward_jump_pos
    backward_jump_pos := [] }

/-- Translation of `Fragment::append_fragment`.  The Rust source destructures
the inner fragment binding its `backward_jump_pos` field to a local named
`forward_jump_pos` and vice versa; the two `extend` calls below then read
those locals, so the net effect pairs backward with backward and forward with
forward — each inner index relocated by the pre-splice length.  This is
exactly the behaviour asserted by the `append_fragment` unit test in the same
file. -/
def append_fragment {F : Type} (f inner : Fragment F) : Fragment F :=
  let len := f.code.length
  { code := f.code ++ inner.code
    backward_jump_pos :=
      f.backward_jump_pos ++ inner.backward_jump_pos.map (fun pos => pos + len)
    forward_jump_pos :=
      f.forward_jump_pos ++ inner.forward_jump_pos.map (fun pos => pos + len) }

/-- Translation of `Fragment::into_code` (the debug assertion that no
`Jump(0)` remains does not change the value). -/
def into_code {F : Type} (f : Fragment F) : List (Code F) :=
  f.code

end Fragment

/-!  Semantic analyzer (`parser/src/tree/variable_statement.rs`).  The
`Tracker` type itself lives outside the four source files, so the calls a tree
node makes on it are recorded as an explicit event trace; `analyze` of a
statement is the list of tracker calls it performs, in order. -/

/-- Modelled from the spec: one call on the scope tracker (`Tracker`, whose
implementation is outside the provided sources).  `add_capture` /
`add_definition` classify a name, `pushScope` / `popScope` are
`push_new_definition_scope` / `pop_current_definition_scope`. -/
inductive TrackerEvent where
  | addCapture (name : String)
  | addDefinition (name : String)
  | pushScope
  | popScope
deriving DecidableEq, Repr

/-- Assignment target (`Local`): a plain variable or a table-field target.
Only the root `name` is inspected by `analyze` (the source matches
`TableField { name, .. }`), so the remaining fields of `TableField` are not
modelled. -/
inductive Local where
  | Variable (name : String)
  | TableField (name : String)
deriving DecidableEq, Repr

/-- Variable statement tree node (`VariableStatement`), parametrised by the
expression type `E` and chunk type `C`, which live outside the provided
sources. -/
inductive VariableStatement (E C : Type) where
  | Var (lhs : Local) (rhs : E)
  | Let (lhs : Local) (rhs : E)
  | Func (name : Local) (args : List String) (body : C)
  | Assign (lhs : Local) (rhs : E)

/-- Tracker calls performed on a `Local` appearing as a statement target: a
`TableField` records a capture of the root name, a `Variable` is classified by
the surrounding arm (capture for `Assign`, definition otherwise). -/
def Local.targetEvents (lhs : Local) (onVariable : String → TrackerEvent) :
    List TrackerEvent :=
  match lhs with
  | .TableField name => [.addCapture name]
  | .Variable name => [onVariable name]

/-- Translation of `<VariableStatement as TreeWalker>::analyze` as an event
trace.  `eAnalyze` / `cAnalyze` stand for the (out-of-scope) `analyze` of
expressions and chunks. -/
def VariableStatement.analyze {E C : Type} (eAnalyze : E → List TrackerEvent)
    (cAnalyze : C → List TrackerEvent) :
    VariableStatement E C → List TrackerEvent
  | .Var lhs rhs => lhs.targetEvents .addDefinition ++ eAnalyze rhs
  | .Let lhs rhs => lhs.targetEvents .addDefinition ++ eAnalyze rhs
  | .Func name args body =>
    name.targetEvents .addDefinition ++
      [.pushScope] ++ args.map .addDefinition ++ cAnalyze body ++ [.popScope]
  | .Assign lhs rhs => lhs.targetEvents .addCapture ++ eAnalyze rhs

/-!  VM execution core (`vm/src/execute.rs`).  Collaborators that live outside
the four provided source files — `f64` arithmetic, `Display` / `Debug` /
`PartialEq` on objects, the per-type built-in method tables, native functions,
and the I/O port — are supplied abstractly by an `Ext` record over the float
model `F` and the external-world state `S`. -/

/-- External collaborators of the execution core.  Fields `fadd` … `fgte`
model `f64` arithmetic and comparison; `itof` models `as f64`; `objEq` models
`PartialEq` on `Object`; `display` and the `dbg` fields model the `Display` /
`Debug` formatting used in output and error messages; the `run*Method` fields
model the primitive method tables; `rustFunction` resolves native-function
handles; the remaining fields model the I/O port and filesystem acting on the
world state `S`. -/
structure Ext (F S : Type) where
  fadd : F → F → F
  fsub : F → F → F
  fmul : F → F → F
  fdiv : F → F → F
  fmod : F → F → F
  fpowf : F → F → F
  fpowi : F → ℤ → F
  fneg : F → F
  itof : ℤ → F
  flt : F → F → Bool
  fle : F → F → Bool
  fgt : F → F → Bool
  fge : F → F → Bool
  fToString : F → String
  objEq : Heap F → Object F → Object F → Bool
  display : Heap F → Object F → String
  dbgObj : Object F → String
  dbgStack : StackValue F → String
  runIntMethod : ℤ → String → List (Object F) → Heap F →
    Except String (Object F × Heap F)
  runFloatMethod : F → String → List (Object F) → Heap F →
    Except String (Object F × Heap F)
  runStringMethod : String → String → List (Object F) → Heap F →
    Except String (Object F × Heap F)
  runBoolMethod : Bool → String → List (Object F) → Heap F →
    Except String (Object F × Heap F)
  runNilMethod : String → List (Object F) → Heap F →
    Except String (Object F × Heap F)
  runArrayMethod : ℕ → String → List (Object F) → Heap F →
    Except String (Object F × Heap F)
  runTableDefaultMethod : ℕ → String → List (Object F) → Heap F →
    Except String (Object F × Heap F)
  runTableBuiltinMethod : ℕ → ℕ → List (Object F) → Heap F →
    Except String (Object F × Heap F)
  rustFunction : ℕ → List (Object F) → Heap F →
    Except String (Object F × Heap F)
  writeOut : S → String → S
  flushOut : S → S
  writeErrOut : S → String → S
  flushErrOut : S → S
  readLine : S → String × S
  readFile : S → String → Except String String × S
  writeFile : S → String → String → Except String Unit × S

/-- Modelled from the spec: the VM runtime (`Runtime`, whose definition is
outside the provided sources) holds the operand stack, the variable table and
the I/O port; the explicit heap and the external-world state complete the
model.  The stack's top is the head of the list. -/
structure Runtime (F S : Type) where
  stack : List (StackValue F)
  variable_table : VariableTable F
  heap : Heap F
  world : S
deriving DecidableEq

/-- Push onto the operand stack. -/
def Runtime.push {F S : Type} (rt : Runtime F S) (v : StackValue F) :
    Runtime F S :=
  { rt with stack := v :: rt.stack }

/-- Modelled from the spec: `StackValue::ensure_object` (outside the provided
sources) yields the plain object, materialising a raw array into a fresh
shared array object and a raw function into a function object; a `Named` pair
observed here is a raw form escaping its construction window, a programming
error (`none`, a panic). -/
def ensure_object {F : Type} (v : StackValue F) (h : Heap F) :
    Option (Object F × Heap F) :=
  match v with
  | .object o => some (o, h)
  | .rawArray a => some (.array h.arrays.length, { h with arrays := h.arrays ++ [a] })
  | .rawFunction f => some (.function f, h)
  | .named _ _ => none

/-- Modelled from the spec: `StackValue::ensure_named` (outside the provided
sources) yields the name/value pair, panicking (`none`) on any other form. -/
def ensure_named {F : Type} (v : StackValue F) : Option (String × Object F) :=
  match v with
  | .named n o => some (n, o)
  | _ => none

/-- Modelled from the spec: `Object::ensure_string` (outside the provided
sources), an `Err` on non-string operands. -/
def Object.ensure_string {F : Type} (o : Object F) : Except String String :=
  match o with
  | .string s => .ok s
  | _ => .error "Expected String Object."

/-- Modelled from the spec: `Object::ensure_int`. -/
def Object.ensure_int {F : Type} (o : Object F) : Except String ℤ :=
  match o with
  | .int x => .ok x
  | _ => .error "Expected Int Object."

/-- Modelled from the spec: `Object::ensure_bool`. -/
def Object.ensure_bool {F : Type} (o : Object F) : Except String Bool :=
  match o with
  | .bool b => .ok b
  | _ => .error "Expected Bool Object."

/-- Pop one stack value; `none` models the panic of popping an empty operand
stack. -/
def popRaw {F S : Type} (rt : Runtime F S) :
    Option (StackValue F × Runtime F S) :=
  match rt.stack with
  | [] => none
  | v :: rest => some (v, { rt with stack := rest })

/-- Translation of the ubiquitous `runtime.stack.pop().ensure_object()`
idiom. -/
def popObject {F S : Type} (rt : Runtime F S) :
    Option (Object F × Runtime F S) :=
  match rt.stack with
  | [] => none
  | v :: rest =>
    (ensure_object v rt.heap).map fun x =>
      (x.1, { rt with stack := rest, heap := x.2 })

/-- Pop `n` objects in pop order (top first). -/
def popObjects {F S : Type} : ℕ → Runtime F S →
    Option (List (Object F) × Runtime F S)
  | 0, rt => some ([], rt)
  | n + 1, rt =>
    (popObject rt).bind fun x =>
      (popObjects n x.2).map fun y => (x.1 :: y.1, y.2)

/-- Translation of `create_args_vec`: pop `args_len` objects and reverse into
source order. -/
def create_args_vec {F S : Type} (args_len : ℕ) (rt : Runtime F S) :
    Option (List (Object F) × Runtime F S) :=
  (popObjects args_len rt).map fun x => (x.1.reverse, x.2)

/-- Pop `n` `Named` pairs in pop order, as done by the `MakeTable` arm;
`none` models the `ensure_named` panic or a stack underflow. -/
def popNamedPairs {F S : Type} : ℕ → Runtime F S →
    Option (List (String × Object F) × Runtime F S)
  | 0, rt => some ([], rt)
  | n + 1, rt =>
    match rt.stack with
    | [] => none
    | v :: rest =>
      match ensure_named v with
      | some p =>
        (popNamedPairs n { rt with stack := rest }).map fun y =>
          (p :: y.1, y.2)
      | none => none

/-- Result of one arithmetic/comparison/concat helper: a value, a runtime
error, or a panic. -/
inductive BinRes (F : Type) where
  | ok (o : Object F)
  | err (msg : String)
  | panic (msg : String)
deriving DecidableEq, Repr

/-- Shared error message of the numeric instruction arms. -/
def numErr {F S : Type} (ext : Ext F S) (l r : Object F) : BinRes F :=
  .err ("Expected Int or Float, but got " ++ ext.dbgObj l ++ " and " ++
    ext.dbgObj r)

/-- Translation of the `Add` arm's case analysis. -/
def addObj {F S : Type} (ext : Ext F S) (l r : Object F) : BinRes F :=
  match l, r with
  | .int a, .int b => .ok (.int (wrap64 (a + b)))
  | .int a, .float y => .ok (.float (ext.fadd (ext.itof a) y))
  | .float x, .int b => .ok (.float (ext.fadd x (ext.itof b)))
  | .float x, .float y => .ok (.float (ext.fadd x y))
  | l, r => numErr ext l r

/-- Translation of the `Sub` arm's case analysis. -/
def subObj {F S : Type} (ext : Ext F S) (l r : Object F) : BinRes F :=
  match l, r with
  | .int a, .int b => .ok (.int (wrap64 (a - b)))
  | .int a, .float y => .ok (.float (ext.fsub (ext.itof a) y))
  | .float x, .int b => .ok (.float (ext.fsub x (ext.itof b)))
  | .float x, .float y => .ok (.float (ext.fsub x y))
  | l, r => numErr ext l r

/-- Translation of the `Mul` arm's case analysis. -/
def mulObj {F S : Type} (ext : Ext F S) (l r : Object F) : BinRes F :=
  match l, r with
  | .int a, .int b => .ok (.int (wrap64 (a * b)))
  | .int a, .float y => .ok (.float (ext.fmul (ext.itof a) y))
  | .float x, .int b => .ok (.float (ext.fmul x (ext.itof b)))
  | .float x, .float y => .ok (.float (ext.fmul x y))
  | l, r => numErr ext l r

/-- Translation of the `Div` arm's case analysis.  Rust `i64` division panics
on a zero divisor and on `i64::MIN / -1`; otherwise it truncates toward zero
(`Int.tdiv`). -/
def divObj {F S : Type} (ext : Ext F S) (l r : Object F) : BinRes F :=
  match l, r with
  | .int a, .int b =>
    if b = 0 then .panic "attempt to divide by zero"
    else if a = i64Min ∧ b = -1 then .panic "attempt to divide with overflow"
    else .ok (.int (Int.tdiv a b))
  | .int a, .float y => .ok (.float (ext.fdiv (ext.itof a) y))
  | .float x, .int b => .ok (.float (ext.fdiv x (ext.itof b)))
  | .float x, .float y => .ok (.float (ext.fdiv x y))
  | l, r => numErr ext l r

/-- Translation of the `Mod` arm's case analysis.  Rust `i64` remainder panics
on a zero divisor and on `i64::MIN % -1`; otherwise it is the truncated
remainder (`Int.tmod`, sign of the dividend). -/
def modObj {F S : Type} (ext : Ext F S) (l r : Object F) : BinRes F :=
  match l, r with
  | .int a, .int b =>
    if b = 0 then
      .panic "attempt to calculate the remainder with a divisor of zero"
    else if a = i64Min ∧ b = -1 then
      .panic "attempt to calculate the remainder with overflow"
    else .ok (.int (Int.tmod a b))
  | .int a, .float y => .ok (.float (ext.fmod (ext.itof a) y))
  | .float x, .int b => .ok (.float (ext.fmod x (ext.itof b)))
  | .float x, .float y => .ok (.float (ext.fmod x y))
  | l, r => numErr ext l r

/-- Translation of the `Pow` arm's case analysis: `Int.pow(Int)` is
`unimplemented!`, a panic; `Float.powi` is used for an `Int` exponent that
fits `i32`, `powf` otherwise. -/
def powObj {F S : Type} (ext : Ext F S) (l r : Object F) : BinRes F :=
  match l, r with
  | .int _, .int _ => .panic "not implemented: Int.pow(Int) is not implemented."
  | .int a, .float y => .ok (.float (ext.fpowf (ext.itof a) y))
  | .float x, .int b =>
    if b > 2 ^ 31 - 1 then .ok (.float (ext.fpowf x (ext.itof b)))
    else .ok (.float (ext.fpowi x b))
  | .float x, .float y => .ok (.float (ext.fpowf x y))
  | l, r => numErr ext l r

/-- Translation of the `Unm` arm (negation; `i64` negation wraps on
`i64::MIN` in release builds). -/
def unmObj {F S : Type} (ext : Ext F S) (o : Object F) : BinRes F :=
  match o with
  | .int a => .ok (.int (wrap64 (-a)))
  | .float x => .ok (.float (ext.fneg x))
  | o => .err ("Expected Int or Float, but got " ++ ext.dbgObj o)

/-- Translation of the `Less` arm's case analysis. -/
def lessObj {F S : Type} (ext : Ext F S) (l r : Object F) : BinRes F :=
  match l, r with
  | .int a, .int b => .ok (.bool (a < b))
  | .int a, .float y => .ok (.bool (ext.flt (ext.itof a) y))
  | .float x, .int b => .ok (.bool (ext.flt x (ext.itof b)))
  | .float x, .float y => .ok (.bool (ext.flt x y))
  | l, r => numErr ext l r

/-- Translation of the `LessEq` arm's case analysis. -/
def lessEqObj {F S : Type} (ext : Ext F S) (l r : Object F) : BinRes F :=
  match l, r with
  | .int a, .int b => .ok (.bool (a ≤ b))
  | .int a, .float y => .ok (.bool (ext.fle (ext.itof a) y))
  | .float x, .int b => .ok (.bool (ext.fle x (ext.itof b)))
  | .float x, .float y => .ok (.bool (ext.fle x y))
  | l, r => numErr ext l r

/-- Translation of the `Greater` arm's case analysis. -/
def greaterObj {F S : Type} (ext : Ext F S) (l r : Object F) : BinRes F :=
  match l, r with
  | .int a, .int b => .ok (.bool (a > b))
  | .int a, .float y => .ok (.bool (ext.fgt (ext.itof a) y))
  | .float x, .int b => .ok (.bool (ext.fgt x (ext.itof b)))
  | .float x, .float y => .ok (.bool (ext.fgt x y))
  | l, r => numErr ext l r

/-- Translation of the `GreaterEq` arm's case analysis. -/
def greaterEqObj {F S : Type} (ext : Ext F S) (l r : Object F) : BinRes F :=
  match l, r with
  | .int a, .int b => .ok (.bool (a ≥ b))
  | .int a, .float y => .ok (.bool (ext.fge (ext.itof a) y))
  | .float x, .int b => .ok (.bool (ext.fge x (ext.itof b)))
  | .float x, .float y => .ok (.bool (ext.fge x y))
  | l, r => numErr ext l r

/-- Translation of the `to_string` helper inside the `Concat` arm. -/
def concatToString {F S : Type} (ext : Ext F S) (o : Object F) :
    Except String String :=
  match o with
  | .int x => .ok (toString x)
  | .float x => .ok (ext.fToString x)
  | .string x => .ok x
  | .bool x => .ok (if x then "true" else "false")
  | .nil => .ok "nil"
  | x => .error ("Expected String or Stringable Object, but got " ++
      ext.dbgObj x)

/-- Result of one non-control-flow instruction: proceed with an updated
runtime, unwind with a runtime error, or abort with a panic.  The runtime
carried by `err` / `panic` reflects the mutations (pops, heap writes)
performed before the failure, as in the Rust `&mut` runtime. -/
inductive SRes (F S : Type) where
  | next (rt : Runtime F S)
  | err (msg : String) (rt : Runtime F S)
  | panic (msg : String) (rt : Runtime F S)

/-- Shared shape of the six numeric/comparison instruction arms: pop `rhs`,
pop `lhs`, combine, push. -/
def binStep {F S : Type} (rt : Runtime F S)
    (f : Object F → Object F → BinRes F) : SRes F S :=
  match popObject rt with
  | none => .panic "[BUG] pop on empty stack" rt
  | some (rhs, rt₁) =>
    match popObject rt₁ with
    | none => .panic "[BUG] pop on empty stack" rt₁
    | some (lhs, rt₂) =>
      match f lhs rhs with
      | .ok o => .next (rt₂.push (.object o))
      | .err m => .err m rt₂
      | .panic m => .panic m rt₂

/-- Translation of the `SetItem` arm: pop accesser, pop target, pop value;
write through a raw array by value, through an `Array` / `Table` object via
the heap; push the target back. -/
def setItemStep {F S : Type} (ext : Ext F S) (rt : Runtime F S) : SRes F S :=
  match popObject rt with
  | none => .panic "[BUG] pop on empty stack" rt
  | some (accesser, rt₁) =>
    match popRaw rt₁ with
    | none => .panic "[BUG] pop on empty stack" rt₁
    | some (target, rt₂) =>
      match popObject rt₂ with
      | none => .panic "[BUG] pop on empty stack" rt₂
      | some (value, rt₃) =>
        match target with
        | .rawArray a =>
          match accesser.ensure_int with
          | .error m => .err m rt₃
          | .ok i =>
            let idx := usizeOfI64 i
            if idx < a.length then
              .next (rt₃.push (.rawArray (a.set idx value)))
            else .panic "index out of bounds" rt₃
        | .object (.array r) =>
          match accesser.ensure_int with
          | .error m => .err m rt₃
          | .ok i =>
            match rt₃.heap.arrays.get? r with
            | none => .panic "[BUG] dangling array reference" rt₃
            | some a =>
              let idx := usizeOfI64 i
              if idx < a.length then
                .next { rt₃ with
                  stack := .object (.array r) :: rt₃.stack
                  heap := { rt₃.heap with
                    arrays := rt₃.heap.arrays.set r (a.set idx value) } }
              else .panic "index out of bounds" rt₃
        | .object (.table r) =>
          match accesser.ensure_string with
          | .error m => .err m rt₃
          | .ok key =>
            match rt₃.heap.tables.get? r with
            | none => .panic "[BUG] dangling table reference" rt₃
            | some t =>
              .next { rt₃ with
                stack := .object (.table r) :: rt₃.stack
                heap := { rt₃.heap with
                  tables := rt₃.heap.tables.set r
                    { t with entries := hmInsert t.entries key value } } }
        | x => .err ("Expected Array or Table, but got " ++ ext.dbgStack x) rt₃

/-- Translation of the `GetItem` arm.  For a `String` target the accessing
index `i` is resolved against the character sequence: when `0 ≤ i` the
position read is `chars.len() + i`, otherwise `i` itself (whose `as usize`
reinterpretation is astronomically large); a missing position yields `Nil`. -/
def getItemStep {F S : Type} (ext : Ext F S) (rt : Runtime F S) : SRes F S :=
  match popObject rt with
  | none => .panic "[BUG] pop on empty stack" rt
  | some (accesser, rt₁) =>
    match popRaw rt₁ with
    | none => .panic "[BUG] pop on empty stack" rt₁
    | some (target, rt₂) =>
      match target with
      | .rawArray a =>
        match accesser.ensure_int with
        | .error m => .err m rt₂
        | .ok i =>
          let item := match a.get? (usizeOfI64 i) with
            | some x => x
            | none => Object.nil
          .next (rt₂.push (.object item))
      | .object (.string s) =>
        let chars := s.data
        match accesser.ensure_int with
        | .error m => .err m rt₂
        | .ok i =>
          let index : ℤ := if 0 ≤ i then (chars.length : ℤ) + i else i
          let item := match chars.get? (usizeOfI64 index) with
            | some c => Object.string (String.singleton c)
            | none => Object.nil
          .next (rt₂.push (.object item))
      | .object (.array r) =>
        match accesser.ensure_int with
        | .error m => .err m rt₂
        | .ok i =>
          match rt₂.heap.arrays.get? r with
          | none => .panic "[BUG] dangling array reference" rt₂
          | some a =>
            let item := match a.get? (usizeOfI64 i) with
              | some x => x
              | none => Object.nil
            .next (rt₂.push (.object item))
      | .object (.table r) =>
        match accesser.ensure_string with
        | .error m => .err m rt₂
        | .ok key =>
          match rt₂.heap.tables.get? r with
          | none => .panic "[BUG] dangling table reference" rt₂
          | some t =>
            let item := match hmGet t.entries key with
              | some x => x
              | none => Object.nil
            .next (rt₂.push (.object item))
      | x => .err ("Expected Array or Table, but got " ++ ext.dbgStack x) rt₂

/-- Translation of the `Builtin` arm: pop the arguments, then dispatch on the
operation; arity violations are `assert!` panics. -/
def builtinStep {F S : Type} (ext : Ext F S) (instr : BuiltinInstr)
    (args_len : ℕ) (rt : Runtime F S) : SRes F S :=
  match create_args_vec args_len rt with
  | none => .panic "[BUG] pop on empty stack" rt
  | some (args, rt₁) =>
    match instr with
    | .Write =>
      .next { rt₁ with
        world := args.foldl (fun w a => ext.writeOut w (ext.display rt₁.heap a))
          rt₁.world }
    | .Flush =>
      if args_len = 0 then .next { rt₁ with world := ext.flushOut rt₁.world }
      else .panic "Builtin::Flush takes no arguments." rt₁
    | .WriteError =>
      .next { rt₁ with
        world := args.foldl
          (fun w a => ext.writeErrOut w (ext.display rt₁.heap a)) rt₁.world }
    | .FlushError =>
      if args_len = 0 then
        .next { rt₁ with world := ext.flushErrOut rt₁.world }
      else .panic "Builtin::FlushError takes no arguments." rt₁
    | .ReadLine =>
      if args_len = 0 then
        let x := ext.readLine rt₁.world
        .next { rt₁ with
          stack := .object (.string x.1) :: rt₁.stack, world := x.2 }
      else .panic "Builtin::ReadLine takes no arguments." rt₁
    | .ReadFile =>
      if args_len = 1 then
        match args with
        | p :: _ =>
          match p.ensure_string with
          | .error m => .err m rt₁
          | .ok path =>
            match ext.readFile rt₁.world path with
            | (.error m, w) => .err m { rt₁ with world := w }
            | (.ok content, w) =>
              .next { rt₁ with
                stack := .object (.string content) :: rt₁.stack, world := w }
        | [] => .panic "[BUG] missing argument" rt₁
      else .panic "Builtin::ReadFile takes 1 argument." rt₁
    | .WriteFile =>
      if args_len = 2 then
        match args with
        | p :: c :: _ =>
          match p.ensure_string with
          | .error m => .err m rt₁
          | .ok path =>
            match c.ensure_string with
            | .error m => .err m rt₁
            | .ok content =>
              match ext.writeFile rt₁.world path content with
              | (.error m, w) => .err m { rt₁ with world := w }
              | (.ok _, w) => .next { rt₁ with world := w }
        | _ => .panic "[BUG] missing argument" rt₁
      else .panic "Builtin::WriteFile takes 2 arguments." rt₁

/-- Dispatch of every instruction that neither transfers control nor invokes
a closure; the control-flow arms (`Jump*`, `Call*`, `BeginFuncCreation`,
`Return`, `Exit`, `Nop` and the stray-instruction panics) live directly in
`executeAux`, which is the only caller. -/
def simpleStep {F S : Type} (ext : Ext F S) (instr : Code F)
    (rt : Runtime F S) : SRes F S :=
  match instr with
  | .LoadInt x => .next (rt.push (.object (.int x)))
  | .LoadFloat x => .next (rt.push (.object (.float x)))
  | .LoadBool b => .next (rt.push (.object (.bool b)))
  | .LoadString s => .next (rt.push (.object (.string s)))
  | .LoadNil => .next (rt.push (.object .nil))
  | .LoadLocal id =>
    match rt.variable_table.get rt.heap id with
    | some o => .next (rt.push (.object o))
    | none => .panic "[BUG] LocalId out of range." rt
  | .LoadRustFunction h => .next (rt.push (.object (.rustFunction h)))
  | .UnloadTop =>
    match rt.stack with
    | _ :: rest => .next { rt with stack := rest }
    | [] => .panic "[BUG] pop on empty stack" rt
  | .SetLocal id =>
    match popObject rt with
    | some (o, rt₁) =>
      match rt₁.variable_table.edit rt₁.heap id o with
      | some x => .next { rt₁ with variable_table := x.1, heap := x.2 }
      | none => .panic "[BUG] LocalId out of range." rt₁
    | none => .panic "[BUG] pop on empty stack" rt
  | .MakeLocal =>
    match popObject rt with
    | some (o, rt₁) =>
      match rt₁.variable_table.push o with
      | some vt => .next { rt₁ with variable_table := vt }
      | none => .panic "[BUG] This should be called in at least one scope." rt₁
    | none => .panic "[BUG] pop on empty stack" rt
  | .MakeArray count =>
    match popObjects count rt with
    | some (os, rt₁) => .next (rt₁.push (.rawArray os.reverse))
    | none => .panic "[BUG] pop on empty stack" rt
  | .MakeNamed =>
    match popObject rt with
    | some (nameObj, rt₁) =>
      match nameObj.ensure_string with
      | .error m => .err m rt₁
      | .ok name =>
        match popObject rt₁ with
        | some (o, rt₂) => .next (rt₂.push (.named name o))
        | none => .panic "[BUG] pop on empty stack" rt₁
    | none => .panic "[BUG] pop on empty stack" rt
  | .MakeTable count =>
    match popNamedPairs count rt with
    | some (ps, rt₁) =>
      let entries := ps.foldl (fun m p => hmInsert m p.1 p.2) []
      .next { rt₁ with
        stack := .object (.table rt₁.heap.tables.length) :: rt₁.stack
        heap := { rt₁.heap with
          tables := rt₁.heap.tables ++ [⟨entries, []⟩] } }
    | none => .panic "[BUG] MakeTable expects Named stack values" rt
  | .DropLocal count =>
    match rt.variable_table.drop count with
    | some vt => .next { rt with variable_table := vt }
    | none => .panic "[BUG] Cannot drop variables." rt
  | .SetItem => setItemStep ext rt
  | .GetItem => getItemStep ext rt
  | .Add => binStep rt (addObj ext)
  | .Sub => binStep rt (subObj ext)
  | .Mul => binStep rt (mulObj ext)
  | .Div => binStep rt (divObj ext)
  | .Mod => binStep rt (modObj ext)
  | .Pow => binStep rt (powObj ext)
  | .Unm =>
    match popObject rt with
    | some (o, rt₁) =>
      match unmObj ext o with
      | .ok o' => .next (rt₁.push (.object o'))
      | .err m => .err m rt₁
      | .panic m => .panic m rt₁
    | none => .panic "[BUG] pop on empty stack" rt
  | .Eq =>
    match popObject rt with
    | some (rhs, rt₁) =>
      match popObject rt₁ with
      | some (lhs, rt₂) =>
        .next (rt₂.push (.object (.bool (ext.objEq rt₂.heap lhs rhs))))
      | none => .panic "[BUG] pop on empty stack" rt₁
    | none => .panic "[BUG] pop on empty stack" rt
  | .NotEq =>
    match popObject rt with
    | some (rhs, rt₁) =>
      match popObject rt₁ with
      | some (lhs, rt₂) =>
        .next (rt₂.push (.object (.bool (! ext.objEq rt₂.heap lhs rhs))))
      | none => .panic "[BUG] pop on empty stack" rt₁
    | none => .panic "[BUG] pop on empty stack" rt
  | .Less => binStep rt (lessObj ext)
  | .LessEq => binStep rt (lessEqObj ext)
  | .Greater => binStep rt (greaterObj ext)
  | .GreaterEq => binStep rt (greaterEqObj ext)
  | .Concat =>
    match popObject rt with
    | some (rhs, rt₁) =>
      match popObject rt₁ with
      | some (lhs, rt₂) =>
        match concatToString ext lhs with
        | .error m => .err m rt₂
        | .ok ls =>
          match concatToString ext rhs with
          | .error m => .err m rt₂
          | .ok rs => .next (rt₂.push (.object (.string (ls ++ rs))))
      | none => .panic "[BUG] pop on empty stack" rt₁
    | none => .panic "[BUG] pop on empty stack" rt
  | .Builtin instr args_len => builtinStep ext instr args_len rt
  | _ => .panic "[BUG] control-flow instruction outside the dispatch loop" rt

/-- New program counter of a taken jump: `pc += offset` for a positive
offset, `pc -= offset.unsigned_abs()` otherwise; `none` models the `usize`
underflow abort when the subtraction would go below zero. -/
def jumpTarget (pc : ℕ) (offset : ℤ) : Option ℕ :=
  if 0 < offset then some (pc + offset.toNat)
  else if offset.natAbs ≤ pc then some (pc - offset.natAbs)
  else none

/-- Absorption of the `AddCapture` prefix of a function-creation block,
threading `get_ref` effects; yields the collected cell references, the
updated table and heap, and the number of instructions consumed.  `none`
models both the `code[pc]` out-of-bounds panic on an unterminated block and
the `get_ref` out-of-range panic. -/
def collectEnv {F : Type} : List (Code F) → VariableTable F → Heap F →
    Option (List ℕ × VariableTable F × Heap F × ℕ)
  | .AddCapture i :: rest, vt, h =>
    match VariableTable.get_ref vt h i with
    | some (c, vt', h') =>
      (collectEnv rest vt' h').map fun x =>
        (c :: x.1, x.2.1, x.2.2.1, x.2.2.2 + 1)
    | none => none
  | [], _, _ => none
  | _ :: _, vt, h => some ([], vt, h, 0)

/-- Absorption of the `AddArgument` prefix of a function-creation block. -/
def collectArgs {F : Type} : List (Code F) → Option (List String × ℕ)
  | .AddArgument name :: rest =>
    (collectArgs rest).map fun x => (name :: x.1, x.2 + 1)
  | [] => none
  | _ :: _ => some ([], 0)

/-- Absorption of a function body up to (and excluding) the matching
`EndFuncCreation`, counting nested creation blocks exactly as the Rust
`inner_count` loop does. -/
def collectBody {F : Type} : List (Code F) → ℤ →
    Option (List (Code F) × ℕ)
  | [], _ => none
  | c :: rest, depth =>
    let depth' : ℤ := match c with
      | .BeginFuncCreation => depth + 1
      | .EndFuncCreation => depth - 1
      | _ => depth
    if depth' < 0 then some ([], 0)
    else (collectBody rest depth').map fun x => (c :: x.1, x.2 + 1)

/-- Final outcome of an interpreter invocation: the returned value, a
propagated runtime error, a panic, or fuel exhaustion (a model artefact for
the unboundedly looping Rust interpreter). -/
inductive Outcome (F : Type) where
  | ok (v : Object F)
  | err (msg : String)
  | panic (msg : String)
  | timeout
deriving DecidableEq, Repr

/-- Callee-frame construction of `execute_func`: `push_scope`, then one
`push_ref` per captured cell, then one `push` per argument (the Rust loop
zips the argument-name list with the argument values). -/
def callEntry {F : Type} (f : FunctionObject F) (args : List (Object F))
    (vt : VariableTable F) : Option (VariableTable F) :=
  (f.args.zip args).foldl (fun acc p => acc.bind fun v => v.push p.2)
    (f.env.foldl (fun acc c => acc.bind fun v => v.push_ref c)
      (some vt.push_scope))

mutual

/-- Translation of `execute`: fuel-indexed dispatch loop over `code[pc]`.
Every non-control-flow instruction goes through `simpleStep`; `Jump*`
arms transfer control with `continue` (no increment after a taken jump);
`Call` / `CallMethod` invoke `execute_func`; `Return` / `Exit` terminate. -/
def executeAux {F S : Type} (ext : Ext F S) :
    ℕ → List (Code F) → ℕ → Runtime F S → Outcome F × Runtime F S
  | 0, _, _, rt => (.timeout, rt)
  | fuel + 1, code, pc, rt =>
    match code.get? pc with
    | none => (.panic "index out of bounds", rt)
    | some instr =>
      match instr with
      | .Jump offset =>
        match jumpTarget pc offset with
        | some t => executeAux ext fuel code t rt
        | none => (.panic "attempt to subtract with overflow", rt)
      | .JumpIfTrue offset =>
        match popObject rt with
        | none => (.panic "[BUG] pop on empty stack", rt)
        | some (o, rt₁) =>
          match o.ensure_bool with
          | .error m => (.err m, rt₁)
          | .ok b =>
            if b then
              match jumpTarget pc offset with
              | some t => executeAux ext fuel code t rt₁
              | none => (.panic "attempt to subtract with overflow", rt₁)
            else executeAux ext fuel code (pc + 1) rt₁
      | .JumpIfFalse offset =>
        match popObject rt with
        | none => (.panic "[BUG] pop on empty stack", rt)
        | some (o, rt₁) =>
          match o.ensure_bool with
          | .error m => (.err m, rt₁)
          | .ok b =>
            if b then executeAux ext fuel code (pc + 1) rt₁
            else
              match jumpTarget pc offset with
              | some t => executeAux ext fuel code t rt₁
              | none => (.panic "attempt to subtract with overflow", rt₁)
      | .Call args_len =>
        match create_args_vec args_len rt with
        | none => (.panic "[BUG] pop on empty stack", rt)
        | some (args, rt₁) =>
          match popRaw rt₁ with
          | none => (.panic "[BUG] pop on empty stack", rt₁)
          | some (callee, rt₂) =>
            match callee with
            | .rawFunction f =>
              resumeCall ext fuel code pc (execute_func ext fuel f args rt₂)
            | .object (.function f) =>
              resumeCall ext fuel code pc (execute_func ext fuel f args rt₂)
            | .object (.table r) =>
              match rt₂.heap.tables.get? r with
              | none => (.panic "[BUG] dangling table reference", rt₂)
              | some t =>
                match t.get_method "__call" with
                | some (.builtin h) =>
                  externResume ext fuel code pc rt₂
                    (ext.runTableBuiltinMethod h r args rt₂.heap)
                | some (.custom f) =>
                  resumeCall ext fuel code pc
                    (execute_func ext fuel f args rt₂)
                | none => (.err "__call is not defined.", rt₂)
            | .object (.rustFunction h) =>
              externResume ext fuel code pc rt₂
                (ext.rustFunction h args rt₂.heap)
            | x => (.err ("Expected Callable Object, but got " ++
                ext.dbgStack x), rt₂)
      | .CallMethod name args_len =>
        match popObjects args_len rt with
        | none => (.panic "[BUG] pop on empty stack", rt)
        | some (rev_args, rt₁) =>
          match popObject rt₁ with
          | none => (.panic "[BUG] pop on empty stack", rt₁)
          | some (self_obj, rt₂) =>
            match self_obj with
            | .int x =>
              externResume ext fuel code pc rt₂
                (ext.runIntMethod x name rev_args.reverse rt₂.heap)
            | .float x =>
              externResume ext fuel code pc rt₂
                (ext.runFloatMethod x name rev_args.reverse rt₂.heap)
            | .string x =>
              externResume ext fuel code pc rt₂
                (ext.runStringMethod x name rev_args.reverse rt₂.heap)
            | .bool x =>
              externResume ext fuel code pc rt₂
                (ext.runBoolMethod x name rev_args.reverse rt₂.heap)
            | .nil =>
              externResume ext fuel code pc rt₂
                (ext.runNilMethod name rev_args.reverse rt₂.heap)
            | .array r =>
              externResume ext fuel code pc rt₂
                (ext.runArrayMethod r name rev_args.reverse rt₂.heap)
            | .table r =>
              match rt₂.heap.tables.get? r with
              | none => (.panic "[BUG] dangling table reference", rt₂)
              | some t =>
                match t.get_method name with
                | some (.builtin h) =>
                  externResume ext fuel code pc rt₂
                    (ext.runTableBuiltinMethod h r rev_args.reverse rt₂.heap)
                | some (.custom f) =>
                  resumeCall ext fuel code pc
                    (execute_func ext fuel f
                      ((rev_args ++ [Object.table r]).reverse) rt₂)
                | none =>
                  externResume ext fuel code pc rt₂
                    (ext.runTableDefaultMethod r name rev_args.reverse
                      rt₂.heap)
            | .function _ => (.err "Function does not have methods.", rt₂)
            | .rustFunction _ => (.err "Function does not have methods.", rt₂)
      | .BeginFuncCreation =>
        match collectEnv (code.drop (pc + 1)) rt.variable_table rt.heap with
        | none => (.panic "[BUG] malformed function-creation block", rt)
        | some (env, vt, h, nEnv) =>
          match collectArgs (code.drop (pc + 1 + nEnv)) with
          | none => (.panic "[BUG] malformed function-creation block",
              { rt with variable_table := vt, heap := h })
          | some (fargs, nArgs) =>
            match collectBody (code.drop (pc + 1 + nEnv + nArgs)) 0 with
            | none => (.panic "[BUG] malformed function-creation block",
                { rt with variable_table := vt, heap := h })
            | some (body, nBody) =>
              executeAux ext fuel code (pc + 1 + nEnv + nArgs + nBody + 1)
                { rt with
                  variable_table := vt
                  heap := h
                  stack := .object (.function ⟨(pc, 0), env, fargs, body⟩) ::
                    rt.stack }
      | .AddCapture _ => (.panic "[BUG] AddCapture is not allowed here.", rt)
      | .AddArgument _ => (.panic "[BUG] AddArgument is not allowed here.", rt)
      | .EndFuncCreation =>
        (.panic "[BUG] EndFuncCreation is not allowed here.", rt)
      | .Nop => executeAux ext fuel code (pc + 1) rt
      | .Return =>
        match popObject rt with
        | some (v, rt₁) => (.ok v, rt₁)
        | none => (.panic "[BUG] pop on empty stack", rt)
      | .Exit => (.ok .nil, rt)
      | i =>
        match simpleStep ext i rt with
        | .next rt₁ => executeAux ext fuel code (pc + 1) rt₁
        | .err m rt₁ => (.err m, rt₁)
        | .panic m rt₁ => (.panic m, rt₁)

/-- Translation of `execute_func`: the arity check precedes every mutation
(the fuel-zero equation repeats the check because fuel is matched
structurally; behaviour is identical).  On a successful body execution the
callee scope is popped; every other outcome propagates with the runtime
exactly as the body left it. -/
def execute_func {F S : Type} (ext : Ext F S) :
    ℕ → FunctionObject F → List (Object F) → Runtime F S →
    Outcome F × Runtime F S
  | 0, f, args, rt =>
    if f.args.length ≠ args.length then
      (.err ("Expected " ++ toString f.args.length ++ " arguments, but got " ++
        toString args.length ++ " arguments."), rt)
    else (.timeout, rt)
  | n + 1, f, args, rt =>
    if f.args.length ≠ args.length then
      (.err ("Expected " ++ toString f.args.length ++ " arguments, but got " ++
        toString args.length ++ " arguments."), rt)
    else
      match callEntry f args rt.variable_table with
      | none =>
        (.panic "[BUG] This should be called in at least one scope.", rt)
      | some vt' =>
        match executeAux ext n f.code 0 { rt with variable_table := vt' } with
        | (.ok v, rt') =>
          match rt'.variable_table.pop_scope with
          | some vt'' => (.ok v, { rt' with variable_table := vt'' })
          | none =>
            (.panic "[BUG] This should be called in at least one scope.", rt')
        | (out, rt') => (out, rt')

/-- Continuation of a `Call` / `CallMethod` arm after a closure invocation:
push the returned value and re-enter the dispatch loop at `pc + 1`; any
non-`ok` outcome propagates with the runtime as the callee left it. -/
def resumeCall {F S : Type} (ext : Ext F S) :
    ℕ → List (Code F) → ℕ → Outcome F × Runtime F S →
    Outcome F × Runtime F S
  | fuel, code, pc, (.ok v, rt) =>
    executeAux ext fuel code (pc + 1) (rt.push (.object v))
  | _, _, _, (out, rt) => (out, rt)

/-- Continuation of a `Call` / `CallMethod` arm after an external (built-in
method or native function) invocation: push the value and adopt the heap the
collaborator returned, or unwind its error. -/
def externResume {F S : Type} (ext : Ext F S) :
    ℕ → List (Code F) → ℕ → Runtime F S →
    Except String (Object F × Heap F) → Outcome F × Runtime F S
  | fuel, code, pc, rt, .ok y =>
    executeAux ext fuel code (pc + 1)
      { rt with stack := .object y.1 :: rt.stack, heap := y.2 }
  | _, _, _, rt, .error m => (.err m, rt)

end

/-- Translation of the public entry point `execute(code, runtime)`, starting
the dispatch loop at `pc = 0`. -/
def execute {F S : Type} (ext : Ext F S) (fuel : ℕ) (code : List (Code F))
    (rt : Runtime F S) : Outcome F × Runtime F S :=
  executeAux ext fuel code 0 rt

/-- Runtime carried by a step result, whatever the verdict. -/
def SRes.runtime {F S : Type} : SRes F S → Runtime F S
  | .next rt => rt
  | .err _ rt => rt
  | .panic _ rt => rt

/-!  Frame lemmas: which parts of the state each operation can touch.  They
feed the scope-count invariant behind the error-propagation claim. -/

theorem length_dropLast_concat_of_getLast? {α : Type} {l : List α} {x : α}
    (h : l.getLast? = some x) (y : α) :
    (l.dropLast ++ [y]).length = l.length := by
  have hne : l ≠ [] := by
    intro e
    subst e
    simp at h
  have hpos : 0 < l.length := List.length_pos.mpr hne
  simp [List.length_dropLast]
  omega

theorem VariableTable.push_scopes {F : Type} {vt vt' : VariableTable F}
    {o : Object F} (h : vt.push o = some vt') :
    vt'.scopes.length = vt.scopes.length := by
  unfold VariableTable.push at h
  split at h
  next s hg =>
    have hx := Option.some.inj h
    subst hx
    exact length_dropLast_concat_of_getLast? hg _
  next => simp at h

theorem VariableTable.push_ref_scopes {F : Type} {vt vt' : VariableTable F}
    {c : ℕ} (h : vt.push_ref c = some vt') :
    vt'.scopes.length = vt.scopes.length := by
  unfold VariableTable.push_ref at h
  split at h
  next s hg =>
    have hx := Option.some.inj h
    subst hx
    exact length_dropLast_concat_of_getLast? hg _
  next => simp at h

theorem VariableTable.drop_scopes {F : Type} {vt vt' : VariableTable F}
    {n : ℕ} (h : vt.drop n = some vt') :
    vt'.scopes.length = vt.scopes.length := by
  unfold VariableTable.drop at h
  split at h
  next s hg =>
    rcases Option.map_eq_some'.mp h with ⟨s', _, hv⟩
    subst hv
    exact length_dropLast_concat_of_getLast? hg _
  next => simp at h

theorem VariableTable.edit_scopes {F : Type} {vt : VariableTable F}
    {h : Heap F} {id : ℕ} {o : Object F} {x : VariableTable F × Heap F}
    (he : vt.edit h id o = some x) :
    x.1.scopes.length = vt.scopes.length := by
  unfold VariableTable.edit at he
  split at he
  next s hg =>
    rcases Option.map_eq_some'.mp he with ⟨y, _, hv⟩
    subst hv
    exact length_dropLast_concat_of_getLast? hg _
  next => simp at he

theorem VariableTable.get_ref_scopes {F : Type} {vt : VariableTable F}
    {h : Heap F} {id : ℕ} {x : ℕ × VariableTable F × Heap F}
    (he : vt.get_ref h id = some x) :
    x.2.1.scopes.length = vt.scopes.length := by
  unfold VariableTable.get_ref at he
  split at he
  next s hg =>
    rcases Option.map_eq_some'.mp he with ⟨y, _, hv⟩
    subst hv
    exact length_dropLast_concat_of_getLast? hg _
  next => simp at he

theorem VariableTable.pop_scope_scopes {F : Type} {vt vt' : VariableTable F}
    (h : vt.pop_scope = some vt') :
    vt'.scopes.length + 1 = vt.scopes.length := by
  unfold VariableTable.pop_scope at h
  split at h
  next s hg =>
    have hx := Option.some.inj h
    subst hx
    have hne : vt.scopes ≠ [] := by
      intro e
      rw [e] at hg
      simp at hg
    have hpos : 0 < vt.scopes.length := List.length_pos.mpr hne
    simp [List.length_dropLast]
    omega
  next => simp at h

theorem popRaw_vt {F S : Type} {rt : Runtime F S}
    {x : StackValue F × Runtime F S} (h : popRaw rt = some x) :
    x.2.variable_table = rt.variable_table := by
  unfold popRaw at h
  split at h
  next => simp at h
  next =>
    have hx := Option.some.inj h
    subst hx
    rfl

theorem popObject_vt {F S : Type} {rt : Runtime F S}
    {x : Object F × Runtime F S} (h : popObject rt = some x) :
    x.2.variable_table = rt.variable_table := by
  unfold popObject at h
  split at h
  next => simp at h
  next =>
    rcases Option.map_eq_some'.mp h with ⟨y, _, hv⟩
    subst hv
    rfl

theorem popObjects_vt {F S : Type} :
    ∀ {n : ℕ} {rt : Runtime F S} {x : List (Object F) × Runtime F S},
      popObjects n rt = some x → x.2.variable_table = rt.variable_table := by
  intro n
  induction n with
  | zero =>
    intro rt x h
    cases h
    rfl
  | succ n ih =>
    intro rt x h
    unfold popObjects at h
    rcases Option.bind_eq_some.mp h with ⟨y, h1, h2⟩
    rcases Option.map_eq_some'.mp h2 with ⟨z, hz, hv⟩
    subst hv
    exact (ih hz).trans (popObject_vt h1)

theorem create_args_vec_vt {F S : Type} {n : ℕ} {rt : Runtime F S}
    {x : List (Object F) × Runtime F S} (h : create_args_vec n rt = some x) :
    x.2.variable_table = rt.variable_table := by
  unfold create_args_vec at h
  rcases Option.map_eq_some'.mp h with ⟨y, hy, hv⟩
  subst hv
  have h2 := popObjects_vt hy
  exact h2

theorem popNamedPairs_vt {F S : Type} :
    ∀ {n : ℕ} {rt : Runtime F S}
      {x : List (String × Object F) × Runtime F S},
      popNamedPairs n rt = some x → x.2.variable_table = rt.variable_table := by
  intro n
  induction n with
  | zero =>
    intro rt x h
    cases h
    rfl
  | succ n ih =>
    intro rt x h
    unfold popNamedPairs at h
    split at h
    next => simp at h
    next v rest hs =>
      split at h
      next p hp =>
        rcases Option.map_eq_some'.mp h with ⟨z, hz, hv⟩
        subst hv
        have h2 := ih hz
        exact h2
      next => simp at h

theorem binStep_vt {F S : Type} (rt : Runtime F S)
    (f : Object F → Object F → BinRes F) :
    ((binStep rt f).runtime).variable_table = rt.variable_table := by
  unfold binStep
  split
  next => rfl
  next rhs rt₁ h1 =>
    have e1 := popObject_vt h1
    split
    next => simp_all [SRes.runtime]
    next lhs rt₂ h2 =>
      have e2 := popObject_vt h2
      split <;> simp_all [SRes.runtime, Runtime.push]

theorem setItemStep_vt {F S : Type} (ext : Ext F S) (rt : Runtime F S) :
    ((setItemStep ext rt).runtime).variable_table = rt.variable_table := by
  suffices h : ∀ s, setItemStep ext rt = s →
      s.runtime.variable_table = rt.variable_table from h _ rfl
  intro s hX
  unfold setItemStep at hX
  split at hX
  next => subst hX; rfl
  next acc rt₁ h1 =>
    have e1 := popObject_vt h1
    split at hX
    next => subst hX; simp_all [SRes.runtime]
    next tgt rt₂ h2 =>
      have e2 := popRaw_vt h2
      split at hX
      next => subst hX; simp_all [SRes.runtime]
      next v rt₃ h3 =>
        have e3 := popObject_vt h3
        repeat' split at hX
        all_goals subst hX
        all_goals (solve
          | rfl
          | simp_all [SRes.runtime, Runtime.push]
          | (dsimp only; split_ifs <;> simp_all [SRes.runtime, Runtime.push]))

theorem getItemStep_vt {F S : Type} (ext : Ext F S) (rt : Runtime F S) :
    ((getItemStep ext rt).runtime).variable_table = rt.variable_table := by
  suffices h : ∀ s, getItemStep ext rt = s →
      s.runtime.variable_table = rt.variable_table from h _ rfl
  intro s hX
  unfold getItemStep at hX
  split at hX
  next => subst hX; rfl
  next acc rt₁ h1 =>
    have e1 := popObject_vt h1
    split at hX
    next => subst hX; simp_all [SRes.runtime]
    next tgt rt₂ h2 =>
      have e2 := popRaw_vt h2
      repeat' split at hX
      all_goals subst hX
      all_goals (solve
        | rfl
        | simp_all [SRes.runtime, Runtime.push]
        | (dsimp only; split_ifs <;> simp_all [SRes.runtime, Runtime.push]))

theorem builtinStep_vt {F S : Type} (ext : Ext F S) (instr : BuiltinInstr)
    (n : ℕ) (rt : Runtime F S) :
    ((builtinStep ext instr n rt).runtime).variable_table =
      rt.variable_table := by
  suffices h : ∀ s, builtinStep ext instr n rt = s →
      s.runtime.variable_table = rt.variable_table from h _ rfl
  intro s hX
  unfold builtinStep at hX
  split at hX
  next => subst hX; rfl
  next args rt₁ h1 =>
    have e1 := create_args_vec_vt h1
    repeat' split at hX
    all_goals subst hX
    all_goals (solve
      | rfl
      | simp_all [SRes.runtime, Runtime.push]
      | (dsimp only; split_ifs <;> simp_all [SRes.runtime, Runtime.push]))

theorem simpleStep_scopes {F S : Type} (ext : Ext F S) (i : Code F)
    (rt : Runtime F S) :
    ((simpleStep ext i rt).runtime).variable_table.scopes.length =
      rt.variable_table.scopes.length := by
  cases i with
  | LoadLocal id =>
    simp only [simpleStep]
    split <;> rfl
  | UnloadTop =>
    simp only [simpleStep]
    split <;> rfl
  | SetLocal id =>
    simp only [simpleStep]
    split
    next x h1 =>
      have e1 := popObject_vt h1
      split
      next y h2 =>
        have e2 := VariableTable.edit_scopes h2
        simp_all [SRes.runtime]
      next => simp_all [SRes.runtime]
    next => rfl
  | MakeLocal =>
    simp only [simpleStep]
    split
    next x h1 =>
      have e1 := popObject_vt h1
      split
      next y h2 =>
        have e2 := VariableTable.push_scopes h2
        simp_all [SRes.runtime]
      next => simp_all [SRes.runtime]
    next => rfl
  | MakeArray count =>
    simp only [simpleStep]
    split
    next x h1 =>
      have e1 := popObjects_vt h1
      simp_all [SRes.runtime, Runtime.push]
    next => rfl
  | MakeNamed =>
    simp only [simpleStep]
    split
    next x h1 =>
      have e1 := popObject_vt h1
      split
      next => simp_all [SRes.runtime]
      next =>
        split
        next y h2 =>
          have e2 := popObject_vt h2
          simp_all [SRes.runtime, Runtime.push]
        next => simp_all [SRes.runtime]
    next => rfl
  | MakeTable count =>
    simp only [simpleStep]
    split
    next x h1 =>
      have e1 := popNamedPairs_vt h1
      simp_all [SRes.runtime]
    next => rfl
  | DropLocal count =>
    simp only [simpleStep]
    split
    next vt h1 =>
      have e1 := VariableTable.drop_scopes h1
      simp_all [SRes.runtime]
    next => rfl
  | SetItem =>
    simp only [simpleStep]
    rw [setItemStep_vt]
  | GetItem =>
    simp only [simpleStep]
    rw [getItemStep_vt]
  | Add =>
    simp only [simpleStep]
    rw [binStep_vt]
  | Sub =>
    simp only [simpleStep]
    rw [binStep_vt]
  | Mul =>
    simp only [simpleStep]
    rw [binStep_vt]
  | Div =>
    simp only [simpleStep]
    rw [binStep_vt]
  | Mod =>
    simp only [simpleStep]
    rw [binStep_vt]
  | Pow =>
    simp only [simpleStep]
    rw [binStep_vt]
  | Unm =>
    simp only [simpleStep]
    split
    next x h1 =>
      have e1 := popObject_vt h1
      split <;> simp_all [SRes.runtime, Runtime.push]
    next => rfl
  | Eq =>
    simp only [simpleStep]
    split
    next x h1 =>
      have e1 := popObject_vt h1
      split
      next y h2 =>
        have e2 := popObject_vt h2
        simp_all [SRes.runtime, Runtime.push]
      next => simp_all [SRes.runtime]
    next => rfl
  | NotEq =>
    simp only [simpleStep]
    split
    next x h1 =>
      have e1 := popObject_vt h1
      split
      next y h2 =>
        have e2 := popObject_vt h2
        simp_all [SRes.runtime, Runtime.push]
      next => simp_all [SRes.runtime]
    next => rfl
  | Less =>
    simp only [simpleStep]
    rw [binStep_vt]
  | LessEq =>
    simp only [simpleStep]
    rw [binStep_vt]
  | Greater =>
    simp only [simpleStep]
    rw [binStep_vt]
  | GreaterEq =>
    simp only [simpleStep]
    rw [binStep_vt]
  | Concat =>
    simp only [simpleStep]
    suffices h : ∀ s,
        (match popObject rt with
          | some (rhs, rt₁) =>
            match popObject rt₁ with
            | some (lhs, rt₂) =>
              match concatToString ext lhs with
              | .error m => SRes.err m rt₂
              | .ok ls =>
                match concatToString ext rhs with
                | .error m => SRes.err m rt₂
                | .ok rs => SRes.next (rt₂.push (.object (.string (ls ++ rs))))
            | none => SRes.panic "[BUG] pop on empty stack" rt₁
          | none => SRes.panic "[BUG] pop on empty stack" rt) = s →
        s.runtime.variable_table.scopes.length =
          rt.variable_table.scopes.length from h _ rfl
    intro s hX
    split at hX
    next x rt₁ h1 =>
      have e1 := popObject_vt h1
      split at hX
      next y rt₂ h2 =>
        have e2 := popObject_vt h2
        repeat' split at hX
        all_goals subst hX
        all_goals (solve
          | rfl
          | simp_all [SRes.runtime, Runtime.push]
          | (dsimp only; split_ifs <;> simp_all [SRes.runtime, Runtime.push]))
      next => subst hX; simp_all [SRes.runtime]
    next => subst hX; rfl
  | Builtin instr args_len =>
    simp only [simpleStep]
    rw [builtinStep_vt]
  | _ => rfl

theorem collectEnv_scopes {F : Type} :
    ∀ {l : List (Code F)} {vt : VariableTable F} {h : Heap F}
      {x : List ℕ × VariableTable F × Heap F × ℕ},
      collectEnv l vt h = some x → x.2.1.scopes.length = vt.scopes.length := by
  intro l
  induction l with
  | nil =>
    intro vt h x hx
    simp [collectEnv] at hx
  | cons c rest ih =>
    intro vt h x hx
    cases c
    case AddCapture i =>
      simp only [collectEnv] at hx
      split at hx
      next cc vt' h' hg =>
        rcases Option.map_eq_some'.mp hx with ⟨z, hz, hv⟩
        subst hv
        have e1 := VariableTable.get_ref_scopes hg
        have e2 := ih hz
        simp_all
      next => simp at hx
    all_goals
      simp only [collectEnv] at hx
      have hx2 := Option.some.inj hx
      subst hx2
      rfl

theorem foldl_bind_scopes {F : Type} {A : Type}
    (step : VariableTable F → A → Option (VariableTable F))
    (hstep : ∀ v a v', step v a = some v' →
      v'.scopes.length = v.scopes.length) :
    ∀ (l : List A) {o : Option (VariableTable F)} {vt' : VariableTable F},
      l.foldl (fun acc a => acc.bind fun v => step v a) o = some vt' →
      ∃ v0, o = some v0 ∧ vt'.scopes.length = v0.scopes.length := by
  intro l
  induction l with
  | nil =>
    intro o vt' h
    exact ⟨vt', h, rfl⟩
  | cons a rest ih =>
    intro o vt' h
    rcases ih h with ⟨v1, hv1, e1⟩
    rcases Option.bind_eq_some.mp hv1 with ⟨v0, ho, hs⟩
    exact ⟨v0, ho, e1.trans (hstep _ _ _ hs)⟩

theorem callEntry_scopes {F : Type} {f : FunctionObject F}
    {args : List (Object F)} {vt vt' : VariableTable F}
    (h : callEntry f args vt = some vt') :
    vt'.scopes.length = vt.scopes.length + 1 := by
  unfold callEntry at h
  rcases foldl_bind_scopes (A := String × Object F) (fun v p => v.push p.2)
      (fun v p v' hp => VariableTable.push_scopes hp) _ h with ⟨v1, hv1, e1⟩
  rcases foldl_bind_scopes (A := ℕ) (fun v c => v.push_ref c)
      (fun v c v' hp => VariableTable.push_ref_scopes hp) _ hv1 with
    ⟨v0, hv0, e0⟩
  have h0 := Option.some.inj hv0
  subst h0
  rw [e1, e0]
  simp [VariableTable.push_scope]

theorem dispatch_le {F S : Type} (ext : Ext F S) (n : ℕ)
    (code : List (Code F)) (pc : ℕ) (rt : Runtime F S) (s : SRes F S)
    (hs : s.runtime.variable_table.scopes.length =
      rt.variable_table.scopes.length)
    (hrec : ∀ rt' : Runtime F S, rt'.variable_table.scopes.length ≤
      ((executeAux ext n code (pc + 1) rt').2).variable_table.scopes.length) :
    rt.variable_table.scopes.length ≤
      ((match s with
        | .next rt₁ => executeAux ext n code (pc + 1) rt₁
        | .err m rt₁ => (.err m, rt₁)
        | .panic m rt₁ => (.panic m, rt₁)).2).variable_table.scopes.length := by
  rcases s with rt₁ | ⟨m, rt₁⟩ | ⟨m, rt₁⟩ <;>
    simp only [SRes.runtime] at hs
  · rw [← hs]
    exact hrec rt₁
  · exact le_of_eq hs.symm
  · exact le_of_eq hs.symm

set_option maxHeartbeats 1600000 in
theorem scopes_le_battery {F S : Type} (ext : Ext F S) : ∀ n : ℕ,
    (∀ (code : List (Code F)) (pc : ℕ) (rt : Runtime F S),
      rt.variable_table.scopes.length ≤
        ((executeAux ext n code pc rt).2).variable_table.scopes.length) ∧
    (∀ (f : FunctionObject F) (args : List (Object F)) (rt : Runtime F S),
      rt.variable_table.scopes.length ≤
        ((execute_func ext n f args rt).2).variable_table.scopes.length) ∧
    (∀ (code : List (Code F)) (pc : ℕ) (out : Outcome F) (rt : Runtime F S),
      rt.variable_table.scopes.length ≤
        ((resumeCall ext n code pc (out, rt)).2).variable_table.scopes.length) ∧
    (∀ (code : List (Code F)) (pc : ℕ) (rt : Runtime F S)
      (e : Except String (Object F × Heap F)),
      rt.variable_table.scopes.length ≤
        ((externResume ext n code pc rt e).2).variable_table.scopes.length) := by
  intro n
  induction n with
  | zero =>
    refine ⟨fun code pc rt => ?_, fun f args rt => ?_,
      fun code pc out rt => ?_, fun code pc rt e => ?_⟩
    · simp [executeAux]
    · unfold execute_func
      split <;> simp
    · cases out <;> simp [resumeCall, executeAux, Runtime.push]
    · cases e <;> simp [externResume, executeAux]
  | succ n ih =>
    obtain ⟨ihA, ihF, ihR, ihE⟩ := ih
    have hF : ∀ (f : FunctionObject F) (args : List (Object F))
        (rt : Runtime F S), rt.variable_table.scopes.length ≤
          ((execute_func ext (n + 1) f args rt).2).variable_table.scopes.length := by
      intro f args rt
      unfold execute_func
      split
      next => exact Nat.le.refl
      next =>
        split
        next => exact Nat.le.refl
        next vt' hc =>
          have ec := callEntry_scopes hc
          have ha := ihA f.code 0 { rt with variable_table := vt' }
          split
          next v rt' heq =>
            rw [heq] at ha
            split
            next vt'' hpop =>
              have ep := VariableTable.pop_scope_scopes hpop
              simp only at ha ⊢
              omega
            next =>
              simp only at ha ⊢
              omega
          next out rt' hne heq =>
            rw [heq] at ha
            simp only at ha ⊢
            omega
    have hA : ∀ (code : List (Code F)) (pc : ℕ) (rt : Runtime F S),
        rt.variable_table.scopes.length ≤
          ((executeAux ext (n + 1) code pc rt).2).variable_table.scopes.length := by
      intro code pc rt
      unfold executeAux
      rcases hinstr : code.get? pc with _ | instr
      · exact Nat.le.refl
      cases instr
      all_goals dsimp only
      case Jump offset =>
        rcases ht : jumpTarget pc offset with _ | t
        · exact Nat.le.refl
        · exact ihA code t rt
      case JumpIfTrue offset =>
        rcases h1 : popObject rt with _ | ⟨o, rt₁⟩
        · exact Nat.le.refl
        · dsimp only
          have e1 : rt₁.variable_table = rt.variable_table := popObject_vt h1
          have leq1 : rt.variable_table.scopes.length =
              rt₁.variable_table.scopes.length := by rw [e1]
          rcases hb : o.ensure_bool with m | b
          · exact leq1.le
          · dsimp only
            cases b
            · exact leq1.le.trans (ihA code (pc + 1) rt₁)
            · rcases ht : jumpTarget pc offset with _ | t
              · exact leq1.le
              · exact leq1.le.trans (ihA code t rt₁)
      case JumpIfFalse offset =>
        rcases h1 : popObject rt with _ | ⟨o, rt₁⟩
        · exact Nat.le.refl
        · dsimp only
          have e1 : rt₁.variable_table = rt.variable_table := popObject_vt h1
          have leq1 : rt.variable_table.scopes.length =
              rt₁.variable_table.scopes.length := by rw [e1]
          rcases hb : o.ensure_bool with m | b
          · exact leq1.le
          · dsimp only
            cases b
            · rcases ht : jumpTarget pc offset with _ | t
              · exact leq1.le
              · exact leq1.le.trans (ihA code t rt₁)
            · exact leq1.le.trans (ihA code (pc + 1) rt₁)
      case Call args_len =>
        rcases h1 : create_args_vec args_len rt with _ | ⟨args, rt₁⟩
        · exact Nat.le.refl
        · dsimp only
          have e1 : rt₁.variable_table = rt.variable_table :=
            create_args_vec_vt h1
          have leq1 : rt.variable_table.scopes.length =
              rt₁.variable_table.scopes.length := by rw [e1]
          rcases h2 : popRaw rt₁ with _ | ⟨callee, rt₂⟩
          · exact leq1.le
          · dsimp only
            have e2 : rt₂.variable_table = rt₁.variable_table := popRaw_vt h2
            have leq2 : rt.variable_table.scopes.length =
                rt₂.variable_table.scopes.length := by rw [e2, e1]
            cases callee
            case rawFunction f =>
              dsimp only
              rcases hf : execute_func ext n f args rt₂ with ⟨out, rt₃⟩
              have g1 := ihF f args rt₂
              rw [hf] at g1
              exact leq2.le.trans (g1.trans (ihR code pc out rt₃))
            case rawArray a => exact leq2.le
            case named nm ov => exact leq2.le
            case object o =>
              cases o
              all_goals dsimp only
              case function f =>
                rcases hf : execute_func ext n f args rt₂ with ⟨out, rt₃⟩
                have g1 := ihF f args rt₂
                rw [hf] at g1
                exact leq2.le.trans (g1.trans (ihR code pc out rt₃))
              case table r =>
                rcases hT : rt₂.heap.tables.get? r with _ | t
                · exact leq2.le
                · dsimp only
                  rcases hm : t.get_method "__call" with _ | m
                  · exact leq2.le
                  · cases m
                    case builtin hb => exact leq2.le.trans (ihE code pc rt₂ _)
                    case custom f =>
                      dsimp only
                      rcases hf : execute_func ext n f args rt₂ with ⟨out, rt₃⟩
                      have g1 := ihF f args rt₂
                      rw [hf] at g1
                      exact leq2.le.trans (g1.trans (ihR code pc out rt₃))
              case rustFunction hr =>
                exact leq2.le.trans (ihE code pc rt₂ _)
              case int x => exact leq2.le
              case float x => exact leq2.le
              case bool x => exact leq2.le
              case string x => exact leq2.le
              case nil => exact leq2.le
              case array r => exact leq2.le
      case CallMethod name args_len =>
        rcases h1 : popObjects args_len rt with _ | ⟨rev_args, rt₁⟩
        · exact Nat.le.refl
        · dsimp only
          have e1 : rt₁.variable_table = rt.variable_table := popObjects_vt h1
          have leq1 : rt.variable_table.scopes.length =
              rt₁.variable_table.scopes.length := by rw [e1]
          rcases h2 : popObject rt₁ with _ | ⟨self_obj, rt₂⟩
          · exact leq1.le
          · dsimp only
            have e2 : rt₂.variable_table = rt₁.variable_table := popObject_vt h2
            have leq2 : rt.variable_table.scopes.length =
                rt₂.variable_table.scopes.length := by rw [e2, e1]
            cases self_obj
            all_goals dsimp only
            case int x => exact leq2.le.trans (ihE code pc rt₂ _)
            case float x => exact leq2.le.trans (ihE code pc rt₂ _)
            case string x => exact leq2.le.trans (ihE code pc rt₂ _)
            case bool x => exact leq2.le.trans (ihE code pc rt₂ _)
            case nil => exact leq2.le.trans (ihE code pc rt₂ _)
            case array r => exact leq2.le.trans (ihE code pc rt₂ _)
            case table r =>
              rcases hT : rt₂.heap.tables.get? r with _ | t
              · exact leq2.le
              · dsimp only
                rcases hm : t.get_method name with _ | m
                · exact leq2.le.trans (ihE code pc rt₂ _)
                · cases m
                  case builtin hb => exact leq2.le.trans (ihE code pc rt₂ _)
                  case custom f =>
                    dsimp only
                    rcases hf : execute_func ext n f
                        ((rev_args ++ [Object.table r]).reverse) rt₂ with
                      ⟨out, rt₃⟩
                    have g1 := ihF f ((rev_args ++ [Object.table r]).reverse)
                      rt₂
                    rw [hf] at g1
                    try rw [hf]
                    exact leq2.le.trans (g1.trans (ihR code pc out rt₃))
            case function f => exact leq2.le
            case rustFunction hr => exact leq2.le
      case BeginFuncCreation =>
        rcases hx : collectEnv (code.drop (pc + 1)) rt.variable_table rt.heap
          with _ | ⟨env, vt, h, nEnv⟩
        · exact Nat.le.refl
        · dsimp only
          have ec : vt.scopes.length = rt.variable_table.scopes.length :=
            collectEnv_scopes hx
          rcases hy : collectArgs (code.drop (pc + 1 + nEnv)) with
            _ | ⟨fargs, nArgs⟩
          · exact ec.ge
          · dsimp only
            rcases hz : collectBody (code.drop (pc + 1 + nEnv + nArgs)) 0 with
              _ | ⟨body, nBody⟩
            · exact ec.ge
            · dsimp only
              have hb := ihA code (pc + 1 + nEnv + nArgs + nBody + 1)
                { rt with
                  variable_table := vt
                  heap := h
                  stack := .object (.function ⟨(pc, 0), env, fargs, body⟩) ::
                    rt.stack }
              exact ec.ge.trans hb
      case AddCapture id => exact Nat.le.refl
      case AddArgument name => exact Nat.le.refl
      case EndFuncCreation => exact Nat.le.refl
      case Nop => exact ihA code (pc + 1) rt
      case Return =>
        rcases h1 : popObject rt with _ | ⟨v, rt₁⟩
        · exact Nat.le.refl
        · dsimp only
          have e1 : rt₁.variable_table = rt.variable_table := popObject_vt h1
          have leq1 : rt.variable_table.scopes.length =
              rt₁.variable_table.scopes.length := by rw [e1]
          exact leq1.le
      case Exit => exact Nat.le.refl
      case LoadInt x =>
        exact dispatch_le ext n code pc rt _
          (simpleStep_scopes ext (Code.LoadInt x) rt)
          (fun rt' => ihA code (pc + 1) rt')
      case LoadFloat x =>
        exact dispatch_le ext n code pc rt _
          (simpleStep_scopes ext (Code.LoadFloat x) rt)
          (fun rt' => ihA code (pc + 1) rt')
      case LoadString str =>
        exact dispatch_le ext n code pc rt _
          (simpleStep_scopes ext (Code.LoadString str) rt)
          (fun rt' => ihA code (pc + 1) rt')
      case LoadBool b =>
        exact dispatch_le ext n code pc rt _
          (simpleStep_scopes ext (Code.LoadBool b) rt)
          (fun rt' => ihA code (pc + 1) rt')
      case LoadNil =>
        exact dispatch_le ext n code pc rt _
          (simpleStep_scopes ext (Code.LoadNil) rt)
          (fun rt' => ihA code (pc + 1) rt')
      case LoadLocal id =>
        exact dispatch_le ext n code pc rt _
          (simpleStep_scopes ext (Code.LoadLocal id) rt)
          (fun rt' => ihA code (pc + 1) rt')
      case LoadRustFunction hr =>
        exact dispatch_le ext n code pc rt _
          (simpleStep_scopes ext (Code.LoadRustFunction hr) rt)
          (fun rt' => ihA code (pc + 1) rt')
      case UnloadTop =>
        exact dispatch_le ext n code pc rt _
          (simpleStep_scopes ext (Code.UnloadTop) rt)
          (fun rt' => ihA code (pc + 1) rt')
      case SetLocal id =>
        exact dispatch_le ext n code pc rt _
          (simpleStep_scopes ext (Code.SetLocal id) rt)
          (fun rt' => ihA code (pc + 1) rt')
      case MakeLocal =>
        exact dispatch_le ext n code pc rt _
          (simpleStep_scopes ext (Code.MakeLocal) rt)
          (fun rt' => ihA code (pc + 1) rt')
      case MakeArray c =>
        exact dispatch_le ext n code pc rt _
          (simpleStep_scopes ext (Code.MakeArray c) rt)
          (fun rt' => ihA code (pc + 1) rt')
      case MakeNamed =>
        exact dispatch_le ext n code pc rt _
          (simpleStep_scopes ext (Code.MakeNamed) rt)
          (fun rt' => ihA code (pc + 1) rt')
      case MakeTable c =>
        exact dispatch_le ext n code pc rt _
          (simpleStep_scopes ext (Code.MakeTable c) rt)
          (fun rt' => ihA code (pc + 1) rt')
      case DropLocal c =>
        exact dispatch_le ext n code pc rt _
          (simpleStep_scopes ext (Code.DropLocal c) rt)
          (fun rt' => ihA code (pc + 1) rt')
      case SetItem =>
        exact dispatch_le ext n code pc rt _
          (simpleStep_scopes ext (Code.SetItem) rt)
          (fun rt' => ihA code (pc + 1) rt')
      case GetItem =>
        exact dispatch_le ext n code pc rt _
          (simpleStep_scopes ext (Code.GetItem) rt)
          (fun rt' => ihA code (pc + 1) rt')
      case Add =>
        exact dispatch_le ext n code pc rt _
          (simpleStep_scopes ext (Code.Add) rt)
          (fun rt' => ihA code (pc + 1) rt')
      case Sub =>
        exact dispatch_le ext n code pc rt _
          (simpleStep_scopes ext (Code.Sub) rt)
          (fun rt' => ihA code (pc + 1) rt')
      case Mul =>
        exact dispatch_le ext n code pc rt _
          (simpleStep_scopes ext (Code.Mul) rt)
          (fun rt' => ihA code (pc + 1) rt')
      case Div =>
        exact dispatch_le ext n code pc rt _
          (simpleStep_scopes ext (Code.Div) rt)
          (fun rt' => ihA code (pc + 1) rt')
      case Mod =>
        exact dispatch_le ext n code pc rt _
          (simpleStep_scopes ext (Code.Mod) rt)
          (fun rt' => ihA code (pc + 1) rt')
      case Pow =>
        exact dispatch_le ext n code pc rt _
          (simpleStep_scopes ext (Code.Pow) rt)
          (fun rt' => ihA code (pc + 1) rt')
      case Unm =>
        exact dispatch_le ext n code pc rt _
          (simpleStep_scopes ext (Code.Unm) rt)
          (fun rt' => ihA code (pc + 1) rt')
      case Eq =>
        exact dispatch_le ext n code pc rt _
          (simpleStep_scopes ext (Code.Eq) rt)
          (fun rt' => ihA code (pc + 1) rt')
      case NotEq =>
        exact dispatch_le ext n code pc rt _
          (simpleStep_scopes ext (Code.NotEq) rt)
          (fun rt' => ihA code (pc + 1) rt')
      case Less =>
        exact dispatch_le ext n code pc rt _
          (simpleStep_scopes ext (Code.Less) rt)
          (fun rt' => ihA code (pc + 1) rt')
      case LessEq =>
        exact dispatch_le ext n code pc rt _
          (simpleStep_scopes ext (Code.LessEq) rt)
          (fun rt' => ihA code (pc + 1) rt')
      case Greater =>
        exact dispatch_le ext n code pc rt _
          (simpleStep_scopes ext (Code.Greater) rt)
          (fun rt' => ihA code (pc + 1) rt')
      case GreaterEq =>
        exact dispatch_le ext n code pc rt _
          (simpleStep_scopes ext (Code.GreaterEq) rt)
          (fun rt' => ihA code (pc + 1) rt')
      case Concat =>
        exact dispatch_le ext n code pc rt _
          (simpleStep_scopes ext (Code.Concat) rt)
          (fun rt' => ihA code (pc + 1) rt')
      case Builtin bi al =>
        exact dispatch_le ext n code pc rt _
          (simpleStep_scopes ext (Code.Builtin bi al) rt)
          (fun rt' => ihA code (pc + 1) rt')
    refine ⟨hA, hF, fun code pc out rt => ?_, fun code pc rt e => ?_⟩
    · cases out <;> unfold resumeCall
      case ok v => exact hA code (pc + 1) (rt.push (.object v))
      all_goals exact Nat.le.refl
    · cases e <;> unfold externResume
      case ok y =>
        exact hA code (pc + 1)
          { rt with stack := .object y.1 :: rt.stack, heap := y.2 }
      case error m => exact Nat.le.refl

/-- Corollary of the fuel induction: the dispatch loop never leaves fewer
scopes on the variable table than it found, whatever the outcome. -/
theorem executeAux_scopes_le {F S : Type} (ext : Ext F S) (n : ℕ)
    (code : List (Code F)) (pc : ℕ) (rt : Runtime F S) :
    rt.variable_table.scopes.length ≤
      ((executeAux ext n code pc rt).2).variable_table.scopes.length :=
  (scopes_le_battery ext n).1 code pc rt

/-!  Lemmas about the patch folds of the fragment assembler. -/

theorem foldl_set_length {F : Type} (l : List ℕ) (g : ℕ → Code F)
    (cs : List (Code F)) :
    (l.foldl (fun cs p => cs.set p (g p)) cs).length = cs.length := by
  induction l generalizing cs with
  | nil => rfl
  | cons p rest ih => simp [List.foldl_cons, ih]

theorem foldl_set_getElem? {F : Type} (l : List ℕ) (g : ℕ → Code F)
    (cs : List (Code F)) (q : ℕ) :
    (l.foldl (fun cs p => cs.set p (g p)) cs)[q]? =
      (if q ∈ l then (if q < cs.length then some (g q) else none)
        else cs[q]?) := by
  induction l generalizing cs with
  | nil => simp
  | cons p rest ih =>
    rw [List.foldl_cons, ih]
    by_cases hq : q ∈ rest
    · simp [hq, List.length_set]
    · by_cases hpq : p = q
      · subst hpq
        simp [hq, List.getElem?_set]
      · simp [hq, hpq, Ne.symm hpq, List.getElem?_set]

/-- C3 — for a fragment of length `L` with pending forward positions `pᵢ`
(all in range, as the placeholder invariant guarantees),
`patch_forward_jump k` sets each `code[pᵢ]` to `Jump (L - pᵢ - 1 + k)`,
clears the forward list, and leaves the length, the backward list and every
other code position unchanged. -/
theorem patch_forward_jump_spec {F : Type} (f : Fragment F) (k : ℤ)
    (hwf : ∀ p ∈ f.forward_jump_pos, p < f.code.length) :
    (f.patch_forward_jump k).forward_jump_pos = [] ∧
    (f.patch_forward_jump k).backward_jump_pos = f.backward_jump_pos ∧
    (f.patch_forward_jump k).code.length = f.code.length ∧
    (∀ p ∈ f.forward_jump_pos,
      ((f.patch_forward_jump k).code)[p]? =
        some (.Jump ((f.code.length : ℤ) - (p : ℤ) - 1 + k))) ∧
    (∀ q, q ∉ f.forward_jump_pos →
      ((f.patch_forward_jump k).code)[q]? = f.code[q]?) := by
  refine ⟨rfl, rfl, foldl_set_length _ _ _, ?_, ?_⟩
  · intro p hp
    show (f.forward_jump_pos.foldl _ f.code)[p]? = _
    rw [foldl_set_getElem?]
    simp [hp, hwf p hp]
  · intro q hq
    show (f.forward_jump_pos.foldl _ f.code)[q]? = _
    rw [foldl_set_getElem?]
    simp [hq]

/-- Witness for `patch_forward_jump_spec` at the fragment of the repository's
own `patch_forward_jump` unit test. -/
theorem patch_forward_jump_spec_witness :
    (Fragment.patch_forward_jump (F := Unit)
      ⟨[.Jump 0, .Jump 0, .Jump 0], [0, 1, 2], []⟩ 3).forward_jump_pos = [] ∧
    ((Fragment.patch_forward_jump (F := Unit)
      ⟨[.Jump 0, .Jump 0, .Jump 0], [0, 1, 2], []⟩ 3).code)[1]? =
      some (.Jump 4) := by
  have h := patch_forward_jump_spec (F := Unit)
    ⟨[.Jump 0, .Jump 0, .Jump 0], [0, 1, 2], []⟩ 3 (by decide)
  exact ⟨h.1, (h.2.2.2.1 1 (by decide)).trans (by decide)⟩

/-- C2 counterexample — on the exact fragments of the repository's
`append_fragment` unit test (outer length 3, inner forward list `[2]`, inner
backward list `[0]`), the spliced outer's backward list does *not* contain
`2 + 3 = 5` and its forward list does *not* contain `0 + 3 = 3`: the two
pending lists are not swapped by `append_fragment`. -/
theorem append_fragment_swap_counterexample :
    5 ∉ (Fragment.append_fragment (F := Unit)
        ⟨[.Jump 0, .LoadNil, .Jump 0], [0], [2]⟩
        ⟨[.Jump 0, .UnloadTop, .Jump 0], [2], [0]⟩).backward_jump_pos ∧
    3 ∉ (Fragment.append_fragment (F := Unit)
        ⟨[.Jump 0, .LoadNil, .Jump 0], [0], [2]⟩
        ⟨[.Jump 0, .UnloadTop, .Jump 0], [2], [0]⟩).forward_jump_pos := by
  decide

/-- C2 (amended) — `append_fragment inner` on an outer of pre-splice length
`L` appends inner's code and relocates inner's pending positions by `L`
*without* swapping the lists: the outer backward list gains exactly
`{p + L : p ∈ inner.backward}` and the outer forward list gains exactly
`{p + L : p ∈ inner.forward}`. -/
theorem append_fragment_spec {F : Type} (f inner : Fragment F) :
    (f.append_fragment inner).code = f.code ++ inner.code ∧
    (∀ q, q ∈ (f.append_fragment inner).backward_jump_pos ↔
      q ∈ f.backward_jump_pos ∨
        ∃ p ∈ inner.backward_jump_pos, p + f.code.length = q) ∧
    (∀ q, q ∈ (f.append_fragment inner).forward_jump_pos ↔
      q ∈ f.forward_jump_pos ∨
        ∃ p ∈ inner.forward_jump_pos, p + f.code.length = q) := by
  refine ⟨rfl, fun q => ?_, fun q => ?_⟩ <;>
    simp [Fragment.append_fragment, List.mem_append, List.mem_map]

/-- C7 — the analyzer's `Assign` arm with a plain `Variable` target records
the name as a capture in the tracker, never as a definition: its event trace
is exactly `add_capture name` followed by whatever the right-hand side
records.  No scope information is consulted (the arm does not inspect any
definition-scope state at all — `analyze` is a function of the statement
alone). -/
theorem analyze_assign_variable_is_capture {E C : Type}
    (eAnalyze : E → List TrackerEvent) (cAnalyze : C → List TrackerEvent)
    (name : String) (rhs : E) :
    VariableStatement.analyze eAnalyze cAnalyze
        (.Assign (.Variable name) rhs) =
      .addCapture name :: eAnalyze rhs ∧
    ∀ ev ∈ VariableStatement.analyze eAnalyze cAnalyze
        (.Assign (.Variable name) rhs),
      ev = .addCapture name ∨ ev ∈ eAnalyze rhs := by
  refine ⟨rfl, fun ev hev => ?_⟩
  rw [show VariableStatement.analyze eAnalyze cAnalyze
      (.Assign (.Variable name) rhs) = .addCapture name :: eAnalyze rhs
    from rfl] at hev
  exact List.mem_cons.mp hev

/-- Core of the shared-cell identity: once the top scope's entity at `id` is
`Shared c` (with `c` a live cell), `edit` writes through the cell, `get`
reads through the cell, and `get_ref` returns the same `c` without touching
the state. -/
theorem shared_top_props {F : Type} (vtD : List (Scope F)) (s' : Scope F)
    (h' : Heap F) (id c : ℕ)
    (hent : s'.entities.get? id = some (.shared c))
    (hc : c < h'.cells.length) :
    (∀ v : Object F,
      VariableTable.edit ⟨vtD ++ [s']⟩ h' id v =
        some (⟨vtD ++ [s']⟩, { h' with cells := h'.cells.set c v }) ∧
      (h'.cells.set c v).get? c = some v) ∧
    (∀ v : Object F,
      VariableTable.get ⟨vtD ++ [s']⟩
        { h' with cells := h'.cells.set c v } id = some v) ∧
    VariableTable.get_ref ⟨vtD ++ [s']⟩ h' id = some (c, ⟨vtD ++ [s']⟩, h') := by
  have hset : ∀ v : Object F, (h'.cells.set c v).get? c = some v := by
    intro v
    rw [List.get?_eq_getElem?, List.getElem?_set]
    simp [hc]
  have hent' : s'.entities[id]? = some (.shared c) := by
    rw [← List.get?_eq_getElem?]
    exact hent
  have hsetE : ∀ v : Object F, (h'.cells.set c v)[c]? = some v := by
    intro v
    rw [← List.get?_eq_getElem?]
    exact hset v
  refine ⟨fun v => ⟨?_, hset v⟩, fun v => ?_, ?_⟩
  · simp [VariableTable.edit, Scope.edit, hent', List.getLast?_concat,
      List.dropLast_concat]
  · simp [VariableTable.get, Scope.get, hent', List.getLast?_concat,
      hsetE v]
  · simp [VariableTable.get_ref, Scope.get_ref, hent', List.getLast?_concat,
      List.dropLast_concat]

/-- C5 — closure-capture identity through the `get_ref` upgrade path: if
`get_ref vt h id` yields cell `c` with updated table `vt'` and heap `h'`
(and `c` is a live cell, which the upgrade itself guarantees), then
(a) a subsequent `edit id v` writes `v` into cell `c`,
(b) writing `v` directly through cell `c` makes `get id` return `v`, and
(c) a second `get_ref id` returns the same cell `c` and changes nothing. -/
theorem get_ref_upgrade_identity {F : Type} {vt : VariableTable F}
    {h : Heap F} {id c : ℕ} {vt' : VariableTable F} {h' : Heap F}
    (hget : VariableTable.get_ref vt h id = some (c, vt', h'))
    (hc : c < h'.cells.length) :
    (∀ v : Object F,
      VariableTable.edit vt' h' id v =
        some (vt', { h' with cells := h'.cells.set c v }) ∧
      (h'.cells.set c v).get? c = some v) ∧
    (∀ v : Object F,
      VariableTable.get vt' { h' with cells := h'.cells.set c v } id =
        some v) ∧
    VariableTable.get_ref vt' h' id = some (c, vt', h') := by
  unfold VariableTable.get_ref at hget
  split at hget
  next s hlast =>
    rcases Option.map_eq_some'.mp hget with ⟨x, hs, hv⟩
    have hx1 : x.1 = c := congrArg Prod.fst hv
    have hx2 : (⟨vt.scopes.dropLast ++ [x.2.1]⟩ : VariableTable F) = vt' :=
      congrArg (fun y => y.2.1) hv
    have hx3 : x.2.2 = h' := congrArg (fun y => y.2.2) hv
    have hent : x.2.1.entities.get? id = some (.shared x.1) := by
      unfold Scope.get_ref at hs
      split at hs
      next o hob =>
        have hx := Option.some.inj hs
        have hid : id < s.entities.length := by
          rw [List.get?_eq_getElem?] at hob
          exact (List.getElem?_eq_some_iff.mp hob).1
        rw [← hx]
        rw [List.get?_eq_getElem?]
        simp [List.getElem?_set, hid]
      next cc hob =>
        have hx := Option.some.inj hs
        rw [← hx]
        exact hob
      next => simp at hs
    have hc' : x.1 < x.2.2.cells.length := by
      rw [hx1, hx3]
      exact hc
    rw [← hx1, ← hx2, ← hx3]
    exact shared_top_props vt.scopes.dropLast x.2.1 x.2.2 id x.1 hent hc'
  next => simp at hget

/-- Witness for `get_ref_upgrade_identity`: upgrading the single owned local
`Int 5`, writing `Int 9` through the cell, and re-requesting the cell. -/
theorem get_ref_upgrade_identity_witness :
    VariableTable.get_ref (F := Unit) ⟨[⟨[.value (.int 5)]⟩]⟩ ⟨[], [], []⟩ 0 =
      some (0, ⟨[⟨[.shared 0]⟩]⟩, ⟨[.int 5], [], []⟩) ∧
    (0 : ℕ) < 1 ∧
    VariableTable.edit (F := Unit) ⟨[⟨[.shared 0]⟩]⟩ ⟨[.int 5], [], []⟩ 0
        (.int 9) = some (⟨[⟨[.shared 0]⟩]⟩, ⟨[.int 9], [], []⟩) ∧
    VariableTable.get (F := Unit) ⟨[⟨[.shared 0]⟩]⟩ ⟨[.int 9], [], []⟩ 0 =
      some (.int 9) ∧
    VariableTable.get_ref (F := Unit) ⟨[⟨[.shared 0]⟩]⟩ ⟨[.int 5], [], []⟩ 0 =
      some (0, ⟨[⟨[.shared 0]⟩]⟩, ⟨[.int 5], [], []⟩) := by
  have hget : VariableTable.get_ref (F := Unit) ⟨[⟨[.value (.int 5)]⟩]⟩
      ⟨[], [], []⟩ 0 = some (0, ⟨[⟨[.shared 0]⟩]⟩, ⟨[.int 5], [], []⟩) := by
    decide
  have hmain := get_ref_upgrade_identity hget (by decide)
  exact ⟨hget, by decide, (hmain.1 (.int 9)).1, hmain.2.1 (.int 9),
    hmain.2.2⟩

/-- Trivial instantiation of the external collaborators with `Unit` float
and world models, used to evaluate the interpreter on concrete programs. -/
def unitExt : Ext Unit Unit where
  fadd := fun _ _ => ()
  fsub := fun _ _ => ()
  fmul := fun _ _ => ()
  fdiv := fun _ _ => ()
  fmod := fun _ _ => ()
  fpowf := fun _ _ => ()
  fpowi := fun _ _ => ()
  fneg := fun _ => ()
  itof := fun _ => ()
  flt := fun _ _ => false
  fle := fun _ _ => false
  fgt := fun _ _ => false
  fge := fun _ _ => false
  fToString := fun _ => "0.0"
  objEq := fun _ a b => decide (a = b)
  display := fun _ _ => ""
  dbgObj := fun _ => ""
  dbgStack := fun _ => ""
  runIntMethod := fun _ _ _ _ => .error "no method"
  runFloatMethod := fun _ _ _ _ => .error "no method"
  runStringMethod := fun _ _ _ _ => .error "no method"
  runBoolMethod := fun _ _ _ _ => .error "no method"
  runNilMethod := fun _ _ _ => .error "no method"
  runArrayMethod := fun _ _ _ _ => .error "no method"
  runTableDefaultMethod := fun _ _ _ _ => .error "no method"
  runTableBuiltinMethod := fun _ _ _ _ => .error "no method"
  rustFunction := fun _ _ _ => .error "no native function"
  writeOut := fun w _ => w
  flushOut := fun w => w
  writeErrOut := fun w _ => w
  flushErrOut := fun w => w
  readLine := fun w => ("", w)
  readFile := fun w _ => (.error "no fs", w)
  writeFile := fun w _ _ => (.error "no fs", w)

/-- Fresh runtime: empty operand stack, one empty scope, empty heap. -/
def rt0 : Runtime Unit Unit :=
  ⟨[], VariableTable.new Unit, ⟨[], [], []⟩, ()⟩

/-- True when the object is numeric (`Int` or `Float`). -/
def Object.isNumeric {F : Type} : Object F → Bool
  | .int _ => true
  | .float _ => true
  | _ => false

/-- True when an arithmetic helper produced a runtime error. -/
def BinRes.isError {F : Type} : BinRes F → Bool
  | .err _ => true
  | _ => false

/-- True when an arithmetic helper produced an `ok` result carrying a
`Float`. -/
def BinRes.isFloatOk {F : Type} : BinRes F → Bool
  | .ok (.float _) => true
  | _ => false

/-- The six numeric binary instruction helpers. -/
def binOps {F S : Type} (ext : Ext F S) :
    List (Object F → Object F → BinRes F) :=
  [addObj ext, subObj ext, mulObj ext, divObj ext, modObj ext, powObj ext]

/-- C6 counterexample — `Div` applied to the two `Int` operands `1` and `0`
aborts with the Rust division-by-zero panic instead of producing an `Int`
result, so the unconditional claim that two `Int` operands yield a truncating
`Int` quotient fails at this input. -/
theorem div_by_zero_counterexample :
    divObj unitExt (Object.int 1) (Object.int 0) =
      .panic "attempt to divide by zero" ∧
    divObj unitExt (Object.int 1) (Object.int 0) ≠
      BinRes.ok (Object.int (Int.tdiv 1 0)) := by
  decide

/-- C6 (amended) — numeric promotion of the binary instructions: `Int ⊕ Int`
stays `Int` (two's-complement wrapped) for `Add`, `Sub`, `Mul`; `Div` / `Mod`
of two `Int`s truncate toward zero when the divisor is nonzero and the
division does not overflow, and are fatal panics on a zero divisor;
`Pow(Int, Int)` is a fatal panic; for every one of the six instructions, any
operand mix involving a `Float` yields a `Float` result and any non-numeric
operand yields an error. -/
theorem numeric_promotion_spec {F S : Type} (ext : Ext F S) :
    (∀ a b : ℤ, addObj ext (.int a) (.int b) = .ok (.int (wrap64 (a + b)))) ∧
    (∀ a b : ℤ, subObj ext (.int a) (.int b) = .ok (.int (wrap64 (a - b)))) ∧
    (∀ a b : ℤ, mulObj ext (.int a) (.int b) = .ok (.int (wrap64 (a * b)))) ∧
    (∀ a b : ℤ, b ≠ 0 → ¬(a = i64Min ∧ b = -1) →
      divObj ext (.int a) (.int b) = .ok (.int (Int.tdiv a b))) ∧
    (∀ a b : ℤ, b ≠ 0 → ¬(a = i64Min ∧ b = -1) →
      modObj ext (.int a) (.int b) = .ok (.int (Int.tmod a b))) ∧
    (∀ a : ℤ, divObj ext (.int a) (.int 0) =
      .panic "attempt to divide by zero") ∧
    (∀ a : ℤ, modObj ext (.int a) (.int 0) =
      .panic "attempt to calculate the remainder with a divisor of zero") ∧
    (∀ a b : ℤ, powObj ext (.int a) (.int b) =
      .panic "not implemented: Int.pow(Int) is not implemented.") ∧
    (∀ g ∈ binOps ext, ∀ (a : ℤ) (x : F),
      (g (.int a) (.float x)).isFloatOk = true ∧
      (g (.float x) (.int a)).isFloatOk = true ∧
      ∀ y : F, (g (.float x) (.float y)).isFloatOk = true) ∧
    (∀ g ∈ binOps ext, ∀ l r : Object F,
      (l.isNumeric = false ∨ r.isNumeric = false) →
        (g l r).isError = true) := by
  refine ⟨fun a b => rfl, fun a b => rfl, fun a b => rfl,
    fun a b hb ho => ?_, fun a b hb ho => ?_, fun a => ?_, fun a => ?_,
    fun a b => rfl, ?_, ?_⟩
  · simp [divObj, hb, ho]
  · simp [modObj, hb, ho]
  · simp [divObj]
  · simp [modObj]
  · intro g hg a x
    simp only [binOps, List.mem_cons, List.not_mem_nil, or_false] at hg
    rcases hg with rfl | rfl | rfl | rfl | rfl | rfl
    · exact ⟨rfl, rfl, fun y => rfl⟩
    · exact ⟨rfl, rfl, fun y => rfl⟩
    · exact ⟨rfl, rfl, fun y => rfl⟩
    · exact ⟨rfl, rfl, fun y => rfl⟩
    · exact ⟨rfl, rfl, fun y => rfl⟩
    · refine ⟨rfl, ?_, fun y => rfl⟩
      simp only [powObj]
      split <;> rfl
  · intro g hg l r hnn
    simp only [binOps, List.mem_cons, List.not_mem_nil, or_false] at hg
    rcases hg with rfl | rfl | rfl | rfl | rfl | rfl <;>
      cases l <;> cases r <;>
        simp_all [Object.isNumeric, BinRes.isError, addObj, subObj, mulObj,
          divObj, modObj, powObj, numErr]

/-- Witness for `numeric_promotion_spec` at concrete operands. -/
theorem numeric_promotion_spec_witness :
    addObj unitExt (Object.int 2) (Object.int 3) = .ok (.int 5) ∧
    divObj unitExt (Object.int (-7)) (Object.int 2) = .ok (.int (-3)) ∧
    modObj unitExt (Object.int (-7)) (Object.int 2) = .ok (.int (-1)) ∧
    powObj unitExt (Object.int 2) (Object.int 3) =
      .panic "not implemented: Int.pow(Int) is not implemented." ∧
    (addObj unitExt (Object.int 1) (Object.float ())).isFloatOk = true ∧
    (addObj unitExt (Object.int 1) (Object.bool true)).isError = true := by
  have h := numeric_promotion_spec unitExt
  refine ⟨(h.1 2 3).trans (by decide),
    (h.2.2.2.1 (-7) 2 (by decide) (by decide)).trans (by decide),
    (h.2.2.2.2.1 (-7) 2 (by decide) (by decide)).trans (by decide),
    h.2.2.2.2.2.2.2.1 2 3,
    (h.2.2.2.2.2.2.2.2.1 (addObj unitExt) (by simp [binOps]) 1 ()).1,
    h.2.2.2.2.2.2.2.2.2 (addObj unitExt) (by simp [binOps])
      (.int 1) (.bool true) (by simp [Object.isNumeric])⟩

/-- The `as usize` cast is the identity on values already in `usize`
range. -/
theorem usizeOfI64_of_nonneg {z : ℤ} (h0 : 0 ≤ z) (hlt : z < 2 ^ 64) :
    usizeOfI64 z = z.toNat := by
  unfold usizeOfI64
  rw [Int.emod_eq_of_lt h0 hlt]

/-!  One-step unfolding lemmas for the dispatch loop at specific
instructions. -/

theorem executeAux_at_getItem {F S : Type} (ext : Ext F S) (fuel : ℕ)
    (code : List (Code F)) (pc : ℕ) (rt : Runtime F S)
    (hcode : code.get? pc = some .GetItem) :
    executeAux ext (fuel + 1) code pc rt =
      match simpleStep ext .GetItem rt with
      | .next rt₁ => executeAux ext fuel code (pc + 1) rt₁
      | .err m rt₁ => (.err m, rt₁)
      | .panic m rt₁ => (.panic m, rt₁) := by
  rcases hs : simpleStep ext Code.GetItem rt with rt₁ | ⟨m, rt₁⟩ | ⟨m, rt₁⟩
  all_goals
    conv_lhs => unfold executeAux
    rw [hcode]
    dsimp only
    simp only [hs]

theorem executeAux_at_makeTable {F S : Type} (ext : Ext F S) (fuel : ℕ)
    (code : List (Code F)) (pc : ℕ) (rt : Runtime F S) (n : ℕ)
    (hcode : code.get? pc = some (.MakeTable n)) :
    executeAux ext (fuel + 1) code pc rt =
      match simpleStep ext (.MakeTable n) rt with
      | .next rt₁ => executeAux ext fuel code (pc + 1) rt₁
      | .err m rt₁ => (.err m, rt₁)
      | .panic m rt₁ => (.panic m, rt₁) := by
  rcases hs : simpleStep ext (Code.MakeTable n) rt with rt₁ | ⟨m, rt₁⟩ | ⟨m, rt₁⟩
  all_goals
    conv_lhs => unfold executeAux
    rw [hcode]
    dsimp only
    simp only [hs]

theorem executeAux_at_jump {F S : Type} (ext : Ext F S) (fuel : ℕ)
    (code : List (Code F)) (pc : ℕ) (rt : Runtime F S) (d : ℤ)
    (hcode : code.get? pc = some (.Jump d)) :
    executeAux ext (fuel + 1) code pc rt =
      match jumpTarget pc d with
      | some t => executeAux ext fuel code t rt
      | none => (.panic "attempt to subtract with overflow", rt) := by
  rcases ht : jumpTarget pc d with _ | t
  all_goals
    conv_lhs => unfold executeAux
    rw [hcode]
    dsimp only
    simp only [ht]

/-- C8 — `GetItem` on a `String` target with a non-negative index `i` reads
character position `len + i` of the character sequence, i.e. the non-negative
index is resolved against the end of the string; since `len + i ≥ len`, the
access is always past the end and pushes `Nil`.  (`hbound` keeps the `usize`
cast faithful; any real string and `i64` index satisfy it.) -/
theorem getitem_string_nonneg {F S : Type} (ext : Ext F S) (fuel : ℕ)
    (code : List (Code F)) (pc : ℕ) (rt : Runtime F S) (s : String) (i : ℤ)
    (rest : List (StackValue F))
    (hcode : code.get? pc = some .GetItem)
    (hstack : rt.stack = .object (.int i) :: .object (.string s) :: rest)
    (hi : 0 ≤ i) (hbound : (s.data.length : ℤ) + i < 2 ^ 64) :
    s.data.get? ((s.data.length : ℤ) + i).toNat = none ∧
    executeAux ext (fuel + 1) code pc rt =
      executeAux ext fuel code (pc + 1)
        { rt with stack := .object .nil :: rest } := by
  have h0 : (0 : ℤ) ≤ (s.data.length : ℤ) + i := by positivity
  have hnone : s.data.get? ((s.data.length : ℤ) + i).toNat = none := by
    rw [List.get?_eq_getElem?]
    apply List.getElem?_eq_none
    rw [Int.toNat_add (by positivity) hi]
    simp
  have husize : usizeOfI64 ((s.data.length : ℤ) + i) =
      ((s.data.length : ℤ) + i).toNat := usizeOfI64_of_nonneg h0 hbound
  refine ⟨hnone, ?_⟩
  have hstep : simpleStep ext Code.GetItem rt =
      .next { rt with stack := .object .nil :: rest } := by
    have hpop1 : popObject rt =
        some (Object.int i, { rt with stack := .object (.string s) :: rest }) := by
      simp [popObject, hstack, ensure_object]
    have hpop2 : popRaw { rt with stack := .object (.string s) :: rest } =
        some (.object (.string s), { rt with stack := rest }) := by
      simp [popRaw]
    show getItemStep ext rt = _
    unfold getItemStep
    rw [hpop1]
    dsimp only
    rw [hpop2]
    dsimp only
    simp only [Object.ensure_int, if_pos hi, husize, hnone, Runtime.push]
  rw [executeAux_at_getItem ext fuel code pc rt hcode, hstep]

/-- Witness for `getitem_string_nonneg`: reading index 0 of the two-character
string `"ab"` yields `Nil` (position `2 + 0` is past the end). -/
theorem getitem_string_nonneg_witness :
    ("ab".data.get? (("ab".data.length : ℤ) + 0).toNat = none) ∧
    executeAux unitExt 2 [Code.GetItem] 0
        { rt0 with stack := [.object (.int 0), .object (.string "ab")] } =
      executeAux unitExt 1 [Code.GetItem] 1
        { rt0 with stack := [.object .nil] } := by
  have h := getitem_string_nonneg unitExt 1 [Code.GetItem] 0
    { rt0 with stack := [.object (.int 0), .object (.string "ab")] } "ab" 0 []
    rfl rfl (by decide) (by decide)
  exact ⟨h.1, h.2⟩

/-- The value of the last pair carrying a given key, if any.  In the pop
order delivered by `popNamedPairs` the last pair is the one that was pushed
first. -/
def lastBinding {F : Type} : List (String × Object F) → String →
    Option (Object F)
  | [], _ => none
  | (k, v) :: rest, key =>
    (lastBinding rest key).or (if k = key then some v else none)

theorem hmGet_hmInsert {F : Type} (m : List (String × Object F))
    (key nm : String) (v : Object F) :
    hmGet (hmInsert m key v) nm =
      if key = nm then some v else hmGet m nm := by
  induction m with
  | nil => simp [hmInsert, hmGet]
  | cons p rest ih =>
    obtain ⟨k, w⟩ := p
    by_cases hk : k = key
    · subst hk
      simp [hmInsert, hmGet]
      split_ifs <;> simp_all [hmGet]
    · simp only [hmInsert, if_neg hk, hmGet, ih]
      split_ifs <;> simp_all

theorem hmGet_foldl {F : Type} (ps : List (String × Object F))
    (m0 : List (String × Object F)) (nm : String) :
    hmGet (ps.foldl (fun m p => hmInsert m p.1 p.2) m0) nm =
      (lastBinding ps nm).or (hmGet m0 nm) := by
  induction ps generalizing m0 with
  | nil => simp [lastBinding, Option.or]
  | cons p rest ih =>
    obtain ⟨k, v⟩ := p
    simp only [List.foldl_cons, ih, lastBinding, hmGet_hmInsert]
    rcases lastBinding rest nm with _ | w
    · split_ifs <;> simp [Option.or]
    · simp [Option.or]

/-- C4 — `MakeTable n` pops `n` `Named` pairs and pushes a fresh table whose
entry for each name is the value of the **last** pair in pop order carrying
that name; since `popNamedPairs` delivers pairs top-of-stack first, the last
pair in pop order is the one that was pushed **first** (earliest in source
order), so on a duplicate name the earlier binding wins, not the later
one. -/
theorem maketable_earlier_wins {F S : Type} (ext : Ext F S) (fuel : ℕ)
    (code : List (Code F)) (pc n : ℕ) (rt rt₁ : Runtime F S)
    (pairs : List (String × Object F))
    (hcode : code.get? pc = some (.MakeTable n))
    (hpop : popNamedPairs n rt = some (pairs, rt₁)) :
    executeAux ext (fuel + 1) code pc rt =
      executeAux ext fuel code (pc + 1)
        { rt₁ with
          stack := .object (.table rt₁.heap.tables.length) :: rt₁.stack
          heap := { rt₁.heap with
            tables := rt₁.heap.tables ++
              [⟨pairs.foldl (fun m p => hmInsert m p.1 p.2) [], []⟩] } } ∧
    ∀ nm, hmGet (pairs.foldl (fun m p => hmInsert m p.1 p.2) []) nm =
      lastBinding pairs nm := by
  constructor
  · have hstep : simpleStep ext (Code.MakeTable n) rt =
        .next { rt₁ with
          stack := .object (.table rt₁.heap.tables.length) :: rt₁.stack
          heap := { rt₁.heap with
            tables := rt₁.heap.tables ++
              [⟨pairs.foldl (fun m p => hmInsert m p.1 p.2) [], []⟩] } } := by
      unfold simpleStep
      dsimp only
      rw [hpop]
    rw [executeAux_at_makeTable ext fuel code pc rt n hcode]
    simp only [hstep]
  · intro nm
    rw [hmGet_foldl]
    simp [hmGet, Option.or_none]

/-- C4 counterexample to "later keys win": two `Named` pairs for key `"a"`,
the later-pushed one (stack top) carrying `2` and the earlier-pushed one
carrying `1`; the constructed table stores `1`, the earlier value. -/
theorem maketable_later_wins_counterexample :
    (executeAux unitExt 3 [Code.MakeTable 2, Code.Return] 0
        { rt0 with
          stack := [.named "a" (.int 2), .named "a" (.int 1)] }).1 =
      Outcome.ok (.table 0) ∧
    (executeAux unitExt 3 [Code.MakeTable 2, Code.Return] 0
        { rt0 with
          stack := [.named "a" (.int 2), .named "a" (.int 1)]
        }).2.heap.tables =
      [⟨[("a", Object.int 1)], []⟩] ∧
    Object.int (F := Unit) 1 ≠ Object.int 2 := by
  refine ⟨?_, ?_, by decide⟩ <;>
    simp [executeAux, simpleStep, popNamedPairs, ensure_named, hmInsert,
      popObject, popRaw, ensure_object, Runtime.push, rt0]

/-- Witness for `maketable_earlier_wins` at a duplicate key: the stored
value for `"a"` is the earliest-pushed `1`. -/
theorem maketable_earlier_wins_witness :
    executeAux unitExt 2 [Code.MakeTable 2, Code.Return] 0
        { rt0 with
          stack := [.named "a" (.int 2), .named "a" (.int 1)] } =
      executeAux unitExt 1 [Code.MakeTable 2, Code.Return] 1
        { rt0 with
          stack := [.object (.table 0)]
          heap := { rt0.heap with
            tables := [⟨[("a", Object.int 1)], []⟩] } } ∧
    hmGet [("a", Object.int (F := Unit) 1)] "a" =
      lastBinding [("a", .int 2), ("a", .int 1)] "a" := by
  have h := maketable_earlier_wins unitExt 1 [Code.MakeTable 2, Code.Return]
    0 2 { rt0 with stack := [.named "a" (.int 2), .named "a" (.int 1)] }
    { rt0 with stack := [] } [("a", .int 2), ("a", .int 1)] rfl rfl
  exact ⟨h.1, h.2 "a"⟩

/-- C1 — a taken jump with offset `d` at position `pc` transfers control to
the instruction at `(pc : ℤ) + d` — the offset is measured from the jump
instruction itself, **not** from the instruction after it (`pc + 1 + d`):
this holds for `Jump`, for `JumpIfTrue` when the popped condition is `true`,
and for `JumpIfFalse` when it is `false`, in each case with no further `pc`
increment after the transfer. -/
theorem taken_jump_target (pc t : ℕ) (d : ℤ)
    (ht : jumpTarget pc d = some t) :
    (t : ℤ) = (pc : ℤ) + d ∧
    (∀ (F S : Type) (ext : Ext F S) (fuel : ℕ) (code : List (Code F))
      (rt : Runtime F S), code.get? pc = some (.Jump d) →
      executeAux ext (fuel + 1) code pc rt = executeAux ext fuel code t rt) ∧
    (∀ (F S : Type) (ext : Ext F S) (fuel : ℕ) (code : List (Code F))
      (rt : Runtime F S) (rest : List (StackValue F)),
      code.get? pc = some (.JumpIfTrue d) →
      rt.stack = .object (.bool true) :: rest →
      executeAux ext (fuel + 1) code pc rt =
        executeAux ext fuel code t { rt with stack := rest }) ∧
    (∀ (F S : Type) (ext : Ext F S) (fuel : ℕ) (code : List (Code F))
      (rt : Runtime F S) (rest : List (StackValue F)),
      code.get? pc = some (.JumpIfFalse d) →
      rt.stack = .object (.bool false) :: rest →
      executeAux ext (fuel + 1) code pc rt =
        executeAux ext fuel code t { rt with stack := rest }) := by
  refine ⟨?_, ?_, ?_, ?_⟩
  · unfold jumpTarget at ht
    split_ifs at ht with hpos habs
    · have h := Option.some.inj ht
      omega
    · have h := Option.some.inj ht
      omega
  · intro F S ext fuel code rt hcode
    conv_lhs => unfold executeAux
    rw [hcode]
    dsimp only
    simp only [ht]
  · intro F S ext fuel code rt rest hcode hstack
    have hpop : popObject rt =
        some (Object.bool true, { rt with stack := rest }) := by
      simp [popObject, popRaw, hstack, ensure_object]
    conv_lhs => unfold executeAux
    rw [hcode]
    dsimp only
    rw [hpop]
    dsimp only [Object.ensure_bool]
    rw [if_pos rfl]
    simp only [ht]
  · intro F S ext fuel code rt rest hcode hstack
    have hpop : popObject rt =
        some (Object.bool false, { rt with stack := rest }) := by
      simp [popObject, popRaw, hstack, ensure_object]
    conv_lhs => unfold executeAux
    rw [hcode]
    dsimp only
    rw [hpop]
    dsimp only [Object.ensure_bool]
    rw [if_neg (by decide)]
    simp only [ht]

/-- C1 counterexample to "target is `p + 1 + d`": `Jump 1` at position `0`
lands on `Exit` at position `1` and the program returns `Nil`, whereas
running from the spec-predicted target `0 + 1 + 1 = 2` (`LoadInt 7` then
`Return`) returns `7`. -/
theorem jump_target_counterexample :
    (executeAux unitExt 4
        [Code.Jump 1, Code.Exit, Code.LoadInt 7, Code.Return] 0 rt0).1 =
      Outcome.ok Object.nil ∧
    (executeAux unitExt 4
        [Code.Jump 1, Code.Exit, Code.LoadInt 7, Code.Return] 2 rt0).1 =
      Outcome.ok (.int 7) ∧
    Outcome.ok (F := Unit) Object.nil ≠ Outcome.ok (.int 7) := by
  refine ⟨?_, ?_, by decide⟩ <;>
    simp [executeAux, simpleStep, jumpTarget, popObject, popRaw,
      ensure_object, Runtime.push]

/-- Witness for `taken_jump_target`: `Jump 1` at position `0` transfers to
position `1 = 0 + 1`. -/
theorem taken_jump_target_witness :
    ((1 : ℕ) : ℤ) = ((0 : ℕ) : ℤ) + 1 ∧
    executeAux unitExt 2 [Code.Jump 1, Code.Exit] 0 rt0 =
      executeAux unitExt 1 [Code.Jump 1, Code.Exit] 1 rt0 := by
  have h := taken_jump_target 0 1 1 (by decide)
  exact ⟨h.1, h.2.1 Unit Unit unitExt 1 [Code.Jump 1, Code.Exit] rt0 rfl⟩

/-- C9 — calling a closure with the wrong number of arguments yields the
arity-mismatch error, and the error carries back the runtime exactly as it
was: in particular the variable table is unchanged, because the check
precedes the `push_scope` of the callee frame. -/
theorem arity_mismatch_err {F S : Type} (ext : Ext F S) (fuel : ℕ)
    (f : FunctionObject F) (args : List (Object F)) (rt : Runtime F S)
    (h : f.args.length ≠ args.length) :
    execute_func ext fuel f args rt =
      (.err ("Expected " ++ toString f.args.length ++
        " arguments, but got " ++ toString args.length ++
        " arguments."), rt) := by
  cases fuel <;> simp only [execute_func, if_pos h]

/-- Witness for `arity_mismatch_err`: a one-parameter closure called with no
arguments errs and returns the runtime untouched. -/
theorem arity_mismatch_err_witness :
    execute_func unitExt 1 ⟨(0, 0), [], ["x"], []⟩ [] rt0 =
      (.err "Expected 1 arguments, but got 0 arguments.", rt0) := by
  have h := arity_mismatch_err unitExt 1 ⟨(0, 0), [], ["x"], []⟩ [] rt0
    (by decide)
  simpa using h

/-- C10 — when the closure body ends in a runtime error, `execute_func`
propagates the error without popping the callee scope: the variable table
the error leaves behind still carries the scope pushed for the call (its
scope count exceeds the caller's), whereas `pop_scope` runs only on the
`Ok` path. -/
theorem error_keeps_scope {F S : Type} (ext : Ext F S) (fuel : ℕ)
    (f : FunctionObject F) (args : List (Object F)) (rt rt' : Runtime F S)
    (e : String) (vt₁ : VariableTable F)
    (harity : f.args.length = args.length)
    (hentry : callEntry f args rt.variable_table = some vt₁)
    (hrun : executeAux ext fuel f.code 0 { rt with variable_table := vt₁ } =
      (.err e, rt')) :
    execute_func ext (fuel + 1) f args rt = (.err e, rt') ∧
    rt.variable_table.scopes.length + 1 ≤
      rt'.variable_table.scopes.length := by
  constructor
  · conv_lhs => unfold execute_func
    rw [if_neg (by simp [harity]), hentry]
    dsimp only
    simp only [hrun]
  · have h1 := callEntry_scopes hentry
    have h2 := executeAux_scopes_le ext fuel f.code 0
      { rt with variable_table := vt₁ }
    simp only [hrun] at h2
    omega

/-- Witness for `error_keeps_scope`: a nullary closure whose body adds two
`Nil`s errs, and the callee scope pushed for the call is still on the
variable table (2 scopes where the caller had 1). -/
theorem error_keeps_scope_witness :
    execute_func unitExt 4
        ⟨(0, 0), [], [], [Code.LoadNil, Code.LoadNil, Code.Add]⟩ [] rt0 =
      (.err "Expected Int or Float, but got  and ",
        { rt0 with variable_table := ⟨[⟨[]⟩, ⟨[]⟩]⟩ }) ∧
    rt0.variable_table.scopes.length + 1 ≤
      ({ rt0 with
        variable_table :=
          (⟨[⟨[]⟩, ⟨[]⟩]⟩ : VariableTable Unit) } :
            Runtime Unit Unit).variable_table.scopes.length := by
  have h := error_keeps_scope unitExt 3
    ⟨(0, 0), [], [], [Code.LoadNil, Code.LoadNil, Code.Add]⟩ [] rt0
    { rt0 with variable_table := ⟨[⟨[]⟩, ⟨[]⟩]⟩ }
    "Expected Int or Float, but got  and " ⟨[⟨[]⟩, ⟨[]⟩]⟩ rfl rfl
    (by simp [executeAux, simpleStep, binStep, addObj, numErr, popObject,
      popRaw, ensure_object, Runtime.push, unitExt, rt0])
  exact ⟨h.1, h.2⟩

end Lic
